import Mathlib

/-!
# Poloniex client: request construction and response normalisation

A shallow embedding of `client.go`, `poloniex.go` and `helper/helper.go`.

* Go calls returning `(T, error)` become functions into `Outcome T`, which also records a
  run-time panic (nil pointer dereference).
* The standard library is the environment of the program.  `strconv.ParseFloat`, the `%v`
  rendering of a `float64` and the HMAC-SHA512 digest are fields of `Env`; `encoding/json`,
  `net/url` and `fmt` are embedded directly, following their documented behaviour.
* The network and the clock are the fields of `Sys`; every request handed to the HTTP client is
  appended to `World.sent`, every clock reading increments `World.reads`.
* Go maps are association lists with distinct keys; the order in which `range` visits a map is
  an arbitrary permutation, the structure `RangeOrder`.
-/

namespace Poloniex

/-! ## Go values -/

/-- Go error values met in the client. -/
inductive GoError where
  /-- The value of `errors.New(msg)`. -/
  | new (msg : String)
  /-- An error returned by `http.DefaultClient.Do`. -/
  | transport (e : String)
  /-- An error returned by `json.Unmarshal`. -/
  | unmarshal
deriving DecidableEq, Repr

/-- Result of a Go call of type `(T, error)`: a value with a nil error, a non-nil error with no
value, or a run-time panic. -/
inductive Outcome (α : Type) where
  | ok (v : α)
  | fail (e : GoError)
  | crash
deriving DecidableEq, Repr

/-- A Go pointer: `none` is the nil pointer. -/
abbrev Ptr (α : Type) := Option α

/-- A Go `map[string]V`: an association list whose keys are kept distinct by `GoMap.set`. -/
abbrev GoMap (V : Type) := List (String × V)

/-- The map read `m[k]`, with `none` for an absent key. -/
def GoMap.get {V : Type} : GoMap V → String → Option V
  | [], _ => none
  | (k1, v) :: m, k => if k1 = k then some v else GoMap.get m k

/-- The map write `m[k] = v`. -/
def GoMap.set {V : Type} : GoMap V → String → V → GoMap V
  | [], k, v => [(k, v)]
  | (k1, v1) :: m, k, v => if k1 = k then (k, v) :: m else (k1, v1) :: GoMap.set m k v

/-- The keys of a map. -/
def GoMap.keys {V : Type} (m : GoMap V) : List String := m.map Prod.fst

/-- The order in which a `range` loop visits the entries of a map: unspecified by the language,
so any permutation of the entries. -/
structure RangeOrder where
  visit : {V : Type} → GoMap V → GoMap V
  perm : ∀ {V : Type} (m : GoMap V), List.Perm (visit m) m

/-- The iteration order that visits entries in insertion order. -/
def RangeOrder.insertion : RangeOrder where
  visit := fun m => m
  perm := fun m => List.Perm.refl m

/-- The iteration order that visits entries in reverse insertion order. -/
def RangeOrder.reversed : RangeOrder where
  visit := fun m => m.reverse
  perm := fun m => List.reverse_perm m

/-- Lexicographic comparison of two character sequences by code point, which is the order of
their UTF-8 bytes. -/
def lessChars : List Char → List Char → Bool
  | _, [] => false
  | [], _ :: _ => true
  | a :: as, b :: bs => decide (a.toNat < b.toNat) || (a.toNat == b.toNat && lessChars as bs)

/-- The comparison `a < b` of two Go strings. -/
def stringLess (a b : String) : Bool := lessChars a.toList b.toList

/-- Insertion of an entry into a key-sorted association list. -/
def insertByKey {V : Type} (k : String) (v : V) : List (String × V) → List (String × V)
  | [] => [(k, v)]
  | (k1, v1) :: m =>
    if stringLess k k1 then (k, v) :: (k1, v1) :: m else (k1, v1) :: insertByKey k v m

/-- The entries of a map in increasing key order, as `slices.Sort` over the keys gives them. -/
def sortByKey {V : Type} : List (String × V) → List (String × V)
  | [] => []
  | (k, v) :: m => insertByKey k v (sortByKey m)

/-! ## The environment: standard library primitives -/

/-- Primitives of the standard library the client relies on. -/
structure Env where
  /-- The type `float64`. -/
  F64 : Type
  /-- The call `strconv.ParseFloat(s, 64)`; `none` when it returns an error. -/
  parseFloat : String → Option F64
  /-- The text `fmt.Sprintf("%v", f)` for a `float64`. -/
  formatFloat : F64 → String
  /-- The bytes `mac.Sum(nil)` of `hmac.New(sha512.New, secret)` after writing `content`. -/
  hmacSum : String → String → List Nat

/-! ## JSON -/

/-- A JSON value as read from a response body.  A number keeps its literal text; the members of
an object keep their order and their duplicates. -/
inductive JSON where
  | null
  | bool (b : Bool)
  | num (lit : String)
  | str (s : String)
  | arr (xs : List JSON)
  | obj (kvs : List (String × JSON))

/-- A value stored in a Go `interface{}` by `encoding/json`: nil, `bool`, `float64`, `string`,
`[]interface{}` or `map[string]interface{}` (kept in key order, the order `fmt` prints it). -/
inductive Iface (F : Type) where
  | nil
  | bool (b : Bool)
  | float (f : F)
  | str (s : String)
  | slice (xs : List (Iface F))
  | map (m : List (String × Iface F))

/-- The assignment `m[k] = v` on a key-sorted association list. -/
def setSorted {V : Type} (k : String) (v : V) : List (String × V) → List (String × V)
  | [] => [(k, v)]
  | (k1, v1) :: m =>
    if k1 = k then (k, v) :: m
    else if stringLess k k1 then (k, v) :: (k1, v1) :: m
    else (k1, v1) :: setSorted k v m

mutual
/-- Decoding of a JSON value into an `interface{}`; `none` when the decoder records an error
(a number literal that `strconv.ParseFloat` rejects). -/
def decIface (env : Env) : JSON → Option (Iface env.F64)
  | .null => some .nil
  | .bool b => some (.bool b)
  | .num lit =>
    match env.parseFloat lit with
    | some f => some (.float f)
    | none => none
  | .str s => some (.str s)
  | .arr xs =>
    match decIfaceList env xs with
    | some ys => some (.slice ys)
    | none => none
  | .obj kvs =>
    match decIfaceMembers env kvs [] with
    | some m => some (.map m)
    | none => none
/-- Decoding of the elements of a JSON array into a `[]interface{}`. -/
def decIfaceList (env : Env) : List JSON → Option (List (Iface env.F64))
  | [] => some []
  | x :: xs =>
    match decIface env x, decIfaceList env xs with
    | some y, some ys => some (y :: ys)
    | _, _ => none
/-- Decoding of the members of a JSON object into a `map[string]interface{}`, in order, a later
member overwriting an earlier one with the same key. -/
def decIfaceMembers (env : Env) :
    List (String × JSON) → List (String × Iface env.F64) → Option (List (String × Iface env.F64))
  | [], acc => some acc
  | (k, v) :: kvs, acc =>
    match decIface env v with
    | some y => decIfaceMembers env kvs (setSorted k y acc)
    | none => none
end

mutual
/-- The text `fmt.Sprintf("%v", x)` of a value held in an `interface{}`. -/
def sprintV (env : Env) : Iface env.F64 → String
  | .nil => "<nil>"
  | .bool b => if b then "true" else "false"
  | .float f => env.formatFloat f
  | .str s => s
  | .slice xs => "[" ++ sprintElems env xs ++ "]"
  | .map m => "map[" ++ sprintMembers env m ++ "]"
/-- The elements of a slice, separated by blanks. -/
def sprintElems (env : Env) : List (Iface env.F64) → String
  | [] => ""
  | [x] => sprintV env x
  | x :: y :: xs => sprintV env x ++ " " ++ sprintElems env (y :: xs)
/-- The members of a map as `key:value`, separated by blanks. -/
def sprintMembers (env : Env) : List (String × Iface env.F64) → String
  | [] => ""
  | [(k, x)] => k ++ ":" ++ sprintV env x
  | (k, x) :: y :: m => k ++ ":" ++ sprintV env x ++ " " ++ sprintMembers env (y :: m)
end

/-! ## encoding/json into typed destinations

A decoder returns `none` when `Decode` (or `Unmarshal`) returns an error.  A JSON `null` leaves
a string or an integer unchanged and sets a pointer, a map or a slice to nil; a member whose key
matches no field is skipped; a key matches a field name exactly or under case folding. -/

/-- The rune `encoding/json` compares in place of `c` when it folds a key: an ASCII letter in
upper case, the long s as `S` and the Kelvin sign as `K`.  (Other runes outside ASCII never fold
to an ASCII letter, and every field name here is ASCII.) -/
def foldRune (c : Char) : Char :=
  if 97 ≤ c.toNat ∧ c.toNat ≤ 122 then Char.ofNat (c.toNat - 32)
  else if c.toNat = 0x17F then 'S'
  else if c.toNat = 0x212A then 'K'
  else c

/-- The folded form of a key or of a field name. -/
def foldName (s : String) : String := String.mk (s.toList.map foldRune)

/-- Whether the object key `key` selects the struct field whose JSON name is `name`. -/
def fieldMatches (name key : String) : Bool := foldName key = foldName name

/-- The value of a nonempty run of decimal digits. -/
def digitsValue : List Char → Nat → Option Nat
  | [], acc => some acc
  | c :: cs, acc =>
    if 48 ≤ c.toNat ∧ c.toNat ≤ 57 then digitsValue cs (acc * 10 + (c.toNat - 48)) else none

/-- The call `strconv.ParseInt(s, 10, 64)`; `none` when it returns an error (bad syntax or a
value outside the range of `int64`). -/
def ParseInt (s : String) : Option Int :=
  match s.toList with
  | [] => none
  | c :: cs =>
    if c = '-' then
      match cs, digitsValue cs 0 with
      | _ :: _, some n => if n ≤ 2 ^ 63 then some (-(n : Int)) else none
      | _, _ => none
    else if c = '+' then
      match cs, digitsValue cs 0 with
      | _ :: _, some n => if n < 2 ^ 63 then some (n : Int) else none
      | _, _ => none
    else
      match digitsValue (c :: cs) 0 with
      | some n => if n < 2 ^ 63 then some (n : Int) else none
      | none => none

/-- Decoding into a `string` that holds `old`. -/
def decString (old : String) : JSON → Option String
  | .null => some old
  | .str s => some s
  | _ => none

/-- Decoding into an `int64` (or an `int` of the same width) that holds `old`. -/
def decInt64 (old : Int) : JSON → Option Int
  | .null => some old
  | .num lit => ParseInt lit
  | _ => none

/-- Decoding of the members of a JSON object into a struct, in order: `step s k v` stores the
member `k: v` in `s`. -/
def decMembers {S : Type} (step : S → String → JSON → Option S) :
    S → List (String × JSON) → Option S
  | s, [] => some s
  | s, (k, v) :: kvs =>
    match step s k v with
    | some s1 => decMembers step s1 kvs
    | none => none

/-- Decoding into a struct value that holds `s`. -/
def decStruct {S : Type} (step : S → String → JSON → Option S) (s : S) : JSON → Option S
  | .null => some s
  | .obj kvs => decMembers step s kvs
  | _ => none

/-- Decoding into a nil pointer to a struct: `null` leaves it nil, an object allocates the zero
struct `zero` and fills it. -/
def decPtr {S : Type} (zero : S) (step : S → String → JSON → Option S) : JSON → Option (Ptr S)
  | .null => some none
  | .obj kvs =>
    match decMembers step zero kvs with
    | some s => some (some s)
    | none => none
  | _ => none

/-- Decoding of the members of a JSON object into a map, each element decoded from its zero
value, a later member overwriting an earlier one with the same key. -/
def decMapMembers {V : Type} (decElem : JSON → Option V) :
    GoMap V → List (String × JSON) → Option (GoMap V)
  | m, [] => some m
  | m, (k, v) :: kvs =>
    match decElem v with
    | some x => decMapMembers decElem (m.set k x) kvs
    | none => none

/-- Decoding into a `map[string]V` that holds `init`. -/
def decMap {V : Type} (decElem : JSON → Option V) (init : GoMap V) : JSON → Option (GoMap V)
  | .null => some []
  | .obj kvs => decMapMembers decElem init kvs
  | _ => none

/-- Decoding of the elements of a JSON array. -/
def decElems {V : Type} (decElem : JSON → Option V) : List JSON → Option (List V)
  | [] => some []
  | x :: xs =>
    match decElem x, decElems decElem xs with
    | some y, some ys => some (y :: ys)
    | _, _ => none

/-- Decoding into a slice `[]V` whose old elements the decoder does not read: a slice that is
empty so far, or a slice of `[]interface{}`, every element of which is set anew. -/
def decSlice {V : Type} (decElem : JSON → Option V) : JSON → Option (List V)
  | .null => some []
  | .arr xs => decElems decElem xs
  | _ => none

/-- A Go slice that a decoder may fill more than once: its elements, and the elements its
backing array still holds beyond its length after a truncation.  (Capacity beyond those holds
zero values, which is also what a grown array holds.) -/
structure GoSlice (V : Type) where
  elems : List V := []
  stale : List V := []
deriving DecidableEq, Repr

/-- Decoding into a pointer to a struct that holds `p`: `null` sets it to nil, an object fills
the struct it points to, allocated from `zero` when the pointer is nil. -/
def decPtrInto {S : Type} (zero : S) (step : S → String → JSON → Option S) (p : Ptr S) :
    JSON → Option (Ptr S)
  | .null => some none
  | .obj kvs =>
    match decMembers step (p.getD zero) kvs with
    | some s => some (some s)
    | none => none
  | _ => none

/-- Decoding of the elements of a JSON array into the elements of a backing array, position by
position, and into `zero` beyond it. -/
def decElemsInto {V : Type} (decInto : V → JSON → Option V) (zero : V) :
    List V → List JSON → Option (List V)
  | _, [] => some []
  | [], x :: xs =>
    match decInto zero x, decElemsInto decInto zero [] xs with
    | some y, some ys => some (y :: ys)
    | _, _ => none
  | b :: bs, x :: xs =>
    match decInto b x, decElemsInto decInto zero bs xs with
    | some y, some ys => some (y :: ys)
    | _, _ => none

/-- Decoding into a slice `[]V` that holds `s`: `null` and the empty array give a new empty
slice; another array is decoded into the backing array from its start, and what the array does
not reach stays behind the new length. -/
def decSliceInto {V : Type} (decInto : V → JSON → Option V) (zero : V) (s : GoSlice V) :
    JSON → Option (GoSlice V)
  | .null => some {}
  | .arr [] => some {}
  | .arr (x :: xs) =>
    match decElemsInto decInto zero (s.elems ++ s.stale) (x :: xs) with
    | some ys => some { elems := ys, stale := (s.elems ++ s.stale).drop (x :: xs).length }
    | none => none
  | _ => none

/-- Decoding into a nil `*json.RawMessage`: `null` leaves the pointer nil, any other value is
kept verbatim. -/
def decRawMessage : JSON → Option (Ptr JSON)
  | .null => some none
  | j => some (some j)

/-- Decoding into a `[]interface{}`. -/
def decRow (env : Env) : JSON → Option (List (Iface env.F64))
  | .null => some []
  | .arr xs => decIfaceList env xs
  | _ => none

/-! ## The data model (`poloniex.go`) and the intermediate shapes (`client.go`) -/

structure Ticker where
  Currency : String := ""
  ID : Int := 0
  Last : String := ""
  LowestAsk : String := ""
  HighestBid : String := ""
  PercentChange : String := ""
  BaseVolume : String := ""
  QuoteVolume : String := ""
  IsFrozen : String := ""
  High24hr : String := ""
  Low24hr : String := ""
deriving DecidableEq, Repr

structure Volume24h where
  PrimaryCurrenciesTotals : GoMap String := []
  Markets : GoMap (GoMap String) := []
deriving DecidableEq, Repr

structure Order (F : Type) where
  Value : F
  Amount : F
deriving DecidableEq, Repr

structure OrderBook (F : Type) where
  Pair : String := ""
  Asks : List (Order F) := []
  Bids : List (Order F) := []
  IsFrozen : String := ""
  Seq : Int := 0
deriving DecidableEq, Repr

structure TradeHistory (F : Type) where
  GlobalTradeID : Int
  TradeID : Int
  Date : String
  Type_ : String
  Rate : F
  Amount : F
  Total : F
deriving DecidableEq, Repr

structure Currency where
  ID : Int := 0
  Name : String := ""
  TxFee : String := ""
  MinConf : Int := 0
  DepositAddress : String := ""
  Disabled : Int := 0
  Delisted : Int := 0
  Frozen : Int := 0
deriving DecidableEq, Repr

structure Loan (F : Type) where
  Rate : F
  Amount : F
  RangeMin : Int
  RangeMax : Int
deriving DecidableEq, Repr

structure LoanOrders (F : Type) where
  Offers : List (Loan F) := []
  Demands : List (Loan F) := []
deriving DecidableEq, Repr

structure Balance (F : Type) where
  Currency : String
  Amount : F
deriving DecidableEq, Repr

structure CompleteBalance (F : Type) where
  Currency : String
  Available : F
  OnOrders : F
  BTCValue : F
deriving DecidableEq, Repr

structure orderBookFromJSON (F : Type) where
  Asks : List (List (Iface F)) := []
  Bids : List (List (Iface F)) := []
  IsFrozen : String := ""
  Seq : Int := 0

structure tradeHistoryFromJSON where
  GlobalTradeID : Int := 0
  TradeID : Int := 0
  Date : String := ""
  Type_ : String := ""
  Rate : String := ""
  Amount : String := ""
  Total : String := ""
deriving DecidableEq, Repr

structure loanFromJSON where
  Rate : String := ""
  Amount : String := ""
  RangeMin : Int := 0
  RangeMax : Int := 0
deriving DecidableEq, Repr

structure loanOrdersFromJSON where
  Offers : GoSlice (Ptr loanFromJSON) := {}
  Demands : GoSlice (Ptr loanFromJSON) := {}
deriving DecidableEq, Repr

structure balanceFromJSON where
  Available : String := ""
  OnOrders : String := ""
  BTCValue : String := ""
deriving DecidableEq, Repr

/-- Storing the member `key: v` in a `Ticker` (the field `Currency` has no tag, so its JSON name
is `Currency`). -/
def Ticker.setField (t : Ticker) (key : String) (v : JSON) : Option Ticker :=
  if fieldMatches "Currency" key then (decString t.Currency v).map fun x => { t with Currency := x }
  else if fieldMatches "id" key then (decInt64 t.ID v).map fun x => { t with ID := x }
  else if fieldMatches "last" key then (decString t.Last v).map fun x => { t with Last := x }
  else if fieldMatches "lowestAsk" key then
    (decString t.LowestAsk v).map fun x => { t with LowestAsk := x }
  else if fieldMatches "highestBid" key then
    (decString t.HighestBid v).map fun x => { t with HighestBid := x }
  else if fieldMatches "percentChange" key then
    (decString t.PercentChange v).map fun x => { t with PercentChange := x }
  else if fieldMatches "baseVolume" key then
    (decString t.BaseVolume v).map fun x => { t with BaseVolume := x }
  else if fieldMatches "quoteVolume" key then
    (decString t.QuoteVolume v).map fun x => { t with QuoteVolume := x }
  else if fieldMatches "isFrozen" key then
    (decString t.IsFrozen v).map fun x => { t with IsFrozen := x }
  else if fieldMatches "high24hr" key then
    (decString t.High24hr v).map fun x => { t with High24hr := x }
  else if fieldMatches "low24hr" key then
    (decString t.Low24hr v).map fun x => { t with Low24hr := x }
  else some t

/-- Storing the member `key: v` in a `Currency`. -/
def Currency.setField (c : Currency) (key : String) (v : JSON) : Option Currency :=
  if fieldMatches "id" key then (decInt64 c.ID v).map fun x => { c with ID := x }
  else if fieldMatches "name" key then (decString c.Name v).map fun x => { c with Name := x }
  else if fieldMatches "txFee" key then (decString c.TxFee v).map fun x => { c with TxFee := x }
  else if fieldMatches "minConf" key then (decInt64 c.MinConf v).map fun x => { c with MinConf := x }
  else if fieldMatches "depositAddress" key then
    (decString c.DepositAddress v).map fun x => { c with DepositAddress := x }
  else if fieldMatches "disabled" key then
    (decInt64 c.Disabled v).map fun x => { c with Disabled := x }
  else if fieldMatches "delisted" key then
    (decInt64 c.Delisted v).map fun x => { c with Delisted := x }
  else if fieldMatches "frozen" key then (decInt64 c.Frozen v).map fun x => { c with Frozen := x }
  else some c

/-- Storing the member `key: v` in an `orderBookFromJSON`. -/
def orderBookFromJSON.setField (env : Env) (o : orderBookFromJSON env.F64) (key : String)
    (v : JSON) : Option (orderBookFromJSON env.F64) :=
  if fieldMatches "asks" key then (decSlice (decRow env) v).map fun x => { o with Asks := x }
  else if fieldMatches "bids" key then (decSlice (decRow env) v).map fun x => { o with Bids := x }
  else if fieldMatches "isFrozen" key then
    (decString o.IsFrozen v).map fun x => { o with IsFrozen := x }
  else if fieldMatches "seq" key then (decInt64 o.Seq v).map fun x => { o with Seq := x }
  else some o

/-- Storing the member `key: v` in a `tradeHistoryFromJSON`. -/
def tradeHistoryFromJSON.setField (t : tradeHistoryFromJSON) (key : String) (v : JSON) :
    Option tradeHistoryFromJSON :=
  if fieldMatches "globalTradeID" key then
    (decInt64 t.GlobalTradeID v).map fun x => { t with GlobalTradeID := x }
  else if fieldMatches "tradeID" key then (decInt64 t.TradeID v).map fun x => { t with TradeID := x }
  else if fieldMatches "date" key then (decString t.Date v).map fun x => { t with Date := x }
  else if fieldMatches "type" key then (decString t.Type_ v).map fun x => { t with Type_ := x }
  else if fieldMatches "rate" key then (decString t.Rate v).map fun x => { t with Rate := x }
  else if fieldMatches "amount" key then (decString t.Amount v).map fun x => { t with Amount := x }
  else if fieldMatches "total" key then (decString t.Total v).map fun x => { t with Total := x }
  else some t

/-- Storing the member `key: v` in a `loanFromJSON`. -/
def loanFromJSON.setField (l : loanFromJSON) (key : String) (v : JSON) : Option loanFromJSON :=
  if fieldMatches "rate" key then (decString l.Rate v).map fun x => { l with Rate := x }
  else if fieldMatches "amount" key then (decString l.Amount v).map fun x => { l with Amount := x }
  else if fieldMatches "rangeMin" key then
    (decInt64 l.RangeMin v).map fun x => { l with RangeMin := x }
  else if fieldMatches "rangeMax" key then
    (decInt64 l.RangeMax v).map fun x => { l with RangeMax := x }
  else some l

/-- Storing the member `key: v` in a `loanOrdersFromJSON`: a repeated `offers` or `demands`
member is decoded into the records the slice already holds. -/
def loanOrdersFromJSON.setField (l : loanOrdersFromJSON) (key : String) (v : JSON) :
    Option loanOrdersFromJSON :=
  if fieldMatches "offers" key then
    (decSliceInto (decPtrInto ({} : loanFromJSON) loanFromJSON.setField) none l.Offers v).map
      fun x => { l with Offers := x }
  else if fieldMatches "demands" key then
    (decSliceInto (decPtrInto ({} : loanFromJSON) loanFromJSON.setField) none l.Demands v).map
      fun x => { l with Demands := x }
  else some l

/-- Storing the member `key: v` in a `balanceFromJSON`. -/
def balanceFromJSON.setField (b : balanceFromJSON) (key : String) (v : JSON) :
    Option balanceFromJSON :=
  if fieldMatches "available" key then
    (decString b.Available v).map fun x => { b with Available := x }
  else if fieldMatches "onOrders" key then
    (decString b.OnOrders v).map fun x => { b with OnOrders := x }
  else if fieldMatches "btcValue" key then
    (decString b.BTCValue v).map fun x => { b with BTCValue := x }
  else some b

/-! ## Requests: `net/url`, `net/http`, the signer -/

/-- The UTF-8 bytes of a character. -/
def utf8Bytes (c : Char) : List Nat :=
  let v := c.toNat
  if v < 0x80 then [v]
  else if v < 0x800 then [0xC0 + v / 64, 0x80 + v % 64]
  else if v < 0x10000 then [0xE0 + v / 4096, 0x80 + v / 64 % 64, 0x80 + v % 64]
  else [0xF0 + v / 262144, 0x80 + v / 4096 % 64, 0x80 + v / 64 % 64, 0x80 + v % 64]

/-- The hexadecimal digit of a value below 16, in the given alphabet. -/
def hexDigit (alphabet : String) (n : Nat) : Char := alphabet.toList.getD n '0'

/-- Whether `url.QueryEscape` leaves the byte as it is: letters, digits, `-`, `_`, `.`, `~`. -/
def unreservedByte (b : Nat) : Bool :=
  (48 ≤ b && b ≤ 57) || (65 ≤ b && b ≤ 90) || (97 ≤ b && b ≤ 122) ||
    b == 45 || b == 95 || b == 46 || b == 126

/-- The escaped form of one byte: itself, `+` for a blank, or `%XX`. -/
def escapeByte (b : Nat) : List Char :=
  if unreservedByte b then [Char.ofNat b]
  else if b = 32 then ['+']
  else ['%', hexDigit "0123456789ABCDEF" (b / 16), hexDigit "0123456789ABCDEF" (b % 16)]

/-- The function `url.QueryEscape`. -/
def QueryEscape (s : String) : String :=
  String.mk ((s.toList.map utf8Bytes).flatten.map escapeByte).flatten

/-- The type `url.Values` (and, with the same shape, `http.Header`). -/
abbrev Values := GoMap (List String)

/-- The method `Values.Set`: the key gets the single value, replacing what it had. -/
def Values.Set (v : Values) (key value : String) : Values := GoMap.set v key [value]

/-- The `key=value` pairs of `Values.Encode`, keys in increasing order, both sides escaped. -/
def Values.pairs (v : Values) : List String :=
  ((sortByKey v).map fun kv => kv.2.map fun x => QueryEscape kv.1 ++ "=" ++ QueryEscape x).flatten

/-- The method `Values.Encode`: the pairs joined by `&`. -/
def Values.Encode (v : Values) : String := "&".intercalate (Values.pairs v)

/-- The function `hex.EncodeToString`. -/
def hexEncodeToString (bytes : List Nat) : String :=
  String.mk (bytes.map fun b =>
    [hexDigit "0123456789abcdef" (b % 256 / 16), hexDigit "0123456789abcdef" (b % 16)]).flatten

/-- The signer `helper.HmacSha512`.  Writing to a hash never returns an error, so the error
branch of the source is not taken. -/
def HmacSha512 (env : Env) (secret content : String) : Outcome String :=
  .ok (hexEncodeToString (env.hmacSum secret content))

def URL : String := "https://poloniex.com"

def TradeAPI : String := URL ++ "/tradingApi"

def PublicAPI : String := URL ++ "/public"

/-- An `http.Request` as the client builds it. -/
structure Request where
  method : String
  url : String
  rawQuery : String := ""
  header : Values := []
  body : String := ""
deriving DecidableEq, Repr

/-- What the HTTP round trip gives for a request: an error, or a body in which the decoder finds
a first JSON value (`some`) or no well-formed value (`none`). -/
inductive Response where
  | failed (e : String)
  | body (j : Option JSON)

/-- The world outside the process: the answer to the `n`-th request and the `n`-th reading of
`time.Now().UnixNano()`. -/
structure Sys where
  roundTrip : Nat → Request → Response
  clock : Nat → Int

/-- What the process has done so far: the requests handed to the HTTP client, in order, and the
number of clock readings taken. -/
structure World where
  sent : List Request := []
  reads : Nat := 0
deriving DecidableEq, Repr

structure client where
  key : String
  secret : String
deriving DecidableEq, Repr

/-- The constructor `New` (the warning it logs for empty credentials is not modelled). -/
def New (key secret : String) : client := { key := key, secret := secret }

structure queryParam where
  key : String
  value : String
deriving DecidableEq, Repr

structure postParam where
  key : String
  value : String
deriving DecidableEq, Repr

/-- Sequencing on outcomes: an error or a panic of the first step is the result. -/
def Outcome.andThen {α β : Type} : Outcome α → (α → Outcome β) → Outcome β
  | .ok v, f => f v
  | .fail e, _ => .fail e
  | .crash, _ => .crash

/-- The method `processRequest`: sends the request and decodes the body with `dec`, the decoder
of the destination. -/
def processRequest {δ : Type} (sys : Sys) (dec : JSON → Option δ) (r : Request) (w : World) :
    Outcome δ × World :=
  let w1 : World := { w with sent := w.sent ++ [r] }
  match sys.roundTrip w.sent.length r with
  | .failed e => (.fail (.transport e), w1)
  | .body none => (.fail (.new "find the poloniex error in the returned map"), w1)
  | .body (some j) =>
    match dec j with
    | some d => (.ok d, w1)
    | none => (.fail (.new "find the poloniex error in the returned map"), w1)

/-- The query string `publicCall` builds: `command`, then every parameter, a later `Set`
replacing an earlier value of the same key. -/
def publicQuery (command : String) (queryParams : List queryParam) : Values :=
  queryParams.foldl (fun q p => Values.Set q p.key p.value) (Values.Set [] "command" command)

/-- The request `publicCall` builds (`http.NewRequest` accepts the constant method and URL). -/
def publicRequest (command : String) (queryParams : List queryParam) : Request :=
  { method := "GET", url := PublicAPI, rawQuery := Values.Encode (publicQuery command queryParams) }

/-- The method `publicCall`. -/
def publicCall {δ : Type} (sys : Sys) (dec : JSON → Option δ) (command : String)
    (queryParams : List queryParam) (w : World) : Outcome δ × World :=
  processRequest sys dec (publicRequest command queryParams) w

/-- The form `tradeCall` builds from the clock reading `now`: `command`, `nonce`, then every
parameter, a later `Set` replacing an earlier value of the same key. -/
def tradeForm (command : String) (now : Int) (postParams : List postParam) : Values :=
  postParams.foldl (fun f p => Values.Set f p.key p.value)
    (Values.Set (Values.Set [] "command" command) "nonce" (toString now))

/-- The signed request `tradeCall` builds around the encoded form `body`. -/
def tradeRequest (c : client) (body signedBody : String) : Request :=
  { method := "POST", url := TradeAPI, body := body,
    header := Values.Set (Values.Set (Values.Set (Values.Set [] "Accept" "application/json")
      "Content-Type" "application/x-www-form-urlencoded") "Key" c.key) "Sign" signedBody }

/-- The method `tradeCall`. -/
def tradeCall {δ : Type} (env : Env) (sys : Sys) (c : client) (dec : JSON → Option δ)
    (command : String) (postParams : List postParam) (w : World) : Outcome δ × World :=
  let now := sys.clock w.reads
  let w1 : World := { w with reads := w.reads + 1 }
  let body := Values.Encode (tradeForm command now postParams)
  match HmacSha512 env c.secret body with
  | .ok signedBody => processRequest sys dec (tradeRequest c body signedBody) w1
  | .fail e => (.fail e, w1)
  | .crash => (.crash, w1)

/-! ## The operations of the facade -/

/-- The loop of `GetTickers` over the visited entries. -/
def tickersLoop : List (String × Ptr Ticker) → List Ticker → Outcome (List Ticker)
  | [], tickers => .ok tickers
  | (_, none) :: _, _ => .crash
  | (k, some v) :: rest, tickers => tickersLoop rest (tickers ++ [{ v with Currency := k }])

def GetTickers (ro : RangeOrder) (sys : Sys) (w : World) : Outcome (List Ticker) × World :=
  let r := publicCall sys (decMap (decPtr ({} : Ticker) Ticker.setField) []) "returnTicker" [] w
  (r.1.andThen fun tickersMap => tickersLoop (ro.visit tickersMap) [], r.2)

/-- The loop of `Get24hVolume` over the visited entries. -/
def volumeLoop : List (String × Ptr JSON) → Volume24h → Outcome Volume24h
  | [], volume => .ok volume
  | (_, none) :: _, _ => .crash
  | (k, some raw) :: rest, volume =>
    match decMap (decString "") [] raw with
    | some marketVolume =>
      volumeLoop rest { volume with Markets := GoMap.set volume.Markets k marketVolume }
    | none =>
      match decString "" raw with
      | some primaryCurrencyTotal =>
        volumeLoop rest { volume with
          PrimaryCurrenciesTotals := GoMap.set volume.PrimaryCurrenciesTotals k primaryCurrencyTotal }
      | none => .fail .unmarshal

def Get24hVolume (ro : RangeOrder) (sys : Sys) (w : World) : Outcome Volume24h × World :=
  let r := publicCall sys (decMap decRawMessage []) "return24hVolume" [] w
  (r.1.andThen fun dest => volumeLoop (ro.visit dest) {}, r.2)

/-- One side of `convertOrderBook`: the loop over the source records. -/
def convertRows (env : Env) : List (List (Iface env.F64)) → List (Order env.F64) →
    List (Order env.F64)
  | [], orders => orders
  | a :: rest, orders =>
    match a with
    | a0 :: a1 :: _ =>
      match env.parseFloat (sprintV env a0) with
      | none => convertRows env rest orders
      | some value =>
        match a1 with
        | .float amount => convertRows env rest (orders ++ [{ Value := value, Amount := amount }])
        | _ => convertRows env rest orders
    | _ => convertRows env rest orders

def convertOrderBook (env : Env) : Ptr (orderBookFromJSON env.F64) → Outcome (OrderBook env.F64)
  | none => .crash
  | some o =>
    .ok { IsFrozen := o.IsFrozen, Seq := o.Seq,
          Asks := convertRows env o.Asks [], Bids := convertRows env o.Bids [] }

def GetOrderBook (env : Env) (sys : Sys) (currencyPair : String) (depth : Nat) (w : World) :
    Outcome (OrderBook env.F64) × World :=
  if currencyPair = "all" then
    (.fail (.new "use GetAllOrderBook to get all order book"), w)
  else
    let params : List queryParam :=
      [{ key := "currencyPair", value := currencyPair }, { key := "depth", value := toString depth }]
    let r := publicCall sys
      (decStruct (orderBookFromJSON.setField env) ({} : orderBookFromJSON env.F64))
      "returnOrderBook" params w
    (r.1.andThen fun o =>
      (convertOrderBook env (some o)).andThen fun orderBook =>
        .ok { orderBook with Pair := currencyPair }, r.2)

/-- The loop of `GetAllOrderBooks` over the visited entries. -/
def orderBooksLoop (env : Env) : List (String × Ptr (orderBookFromJSON env.F64)) →
    List (OrderBook env.F64) → Outcome (List (OrderBook env.F64))
  | [], orderBooks => .ok orderBooks
  | (k, v) :: rest, orderBooks =>
    match convertOrderBook env v with
    | .ok orderBook => orderBooksLoop env rest (orderBooks ++ [{ orderBook with Pair := k }])
    | .fail e => .fail e
    | .crash => .crash

def GetAllOrderBooks (env : Env) (ro : RangeOrder) (sys : Sys) (depth : Nat) (w : World) :
    Outcome (List (OrderBook env.F64)) × World :=
  let params : List queryParam :=
    [{ key := "currencyPair", value := "all" }, { key := "depth", value := toString depth }]
  let r := publicCall sys
    (decMap (decPtr ({} : orderBookFromJSON env.F64) (orderBookFromJSON.setField env)) [])
    "returnOrderBook" params w
  (r.1.andThen fun o => orderBooksLoop env (ro.visit o) [], r.2)

/-- The loop of `GetTradeHistory` over the decoded records. -/
def tradeHistoryLoop (env : Env) : List (Ptr tradeHistoryFromJSON) →
    List (TradeHistory env.F64) → Outcome (List (TradeHistory env.F64))
  | [], tradeHistory => .ok tradeHistory
  | none :: _, _ => .crash
  | some t :: rest, tradeHistory =>
    match env.parseFloat t.Rate with
    | none => tradeHistoryLoop env rest tradeHistory
    | some rate =>
      match env.parseFloat t.Amount with
      | none => tradeHistoryLoop env rest tradeHistory
      | some amount =>
        match env.parseFloat t.Total with
        | none => tradeHistoryLoop env rest tradeHistory
        | some total =>
          tradeHistoryLoop env rest (tradeHistory ++ [{
            GlobalTradeID := t.GlobalTradeID, TradeID := t.TradeID, Date := t.Date,
            Type_ := t.Type_, Rate := rate, Amount := amount, Total := total }])

/-- The query parameters of `GetTradeHistory`. -/
def tradeHistoryParams (currencyPair : String) (start end_ : Nat) : List queryParam :=
  let params : List queryParam := [{ key := "currencyPair", value := currencyPair }]
  if start ≠ 0 ∧ end_ ≠ 0 then
    (params ++ [{ key := "start", value := toString start }]) ++
      [{ key := "end", value := toString end_ }]
  else params

def GetTradeHistory (env : Env) (sys : Sys) (currencyPair : String) (start end_ : Nat)
    (w : World) : Outcome (List (TradeHistory env.F64)) × World :=
  let r := publicCall sys
    (decSlice (decPtr ({} : tradeHistoryFromJSON) tradeHistoryFromJSON.setField))
    "returnTradeHistory" (tradeHistoryParams currencyPair start end_) w
  (r.1.andThen fun records => tradeHistoryLoop env records [], r.2)

/-- The loop of `GetCurrencies` over the visited entries. -/
def currenciesLoop : List (String × Ptr Currency) → List Currency → Outcome (List Currency)
  | [], currencies => .ok currencies
  | (_, none) :: _, _ => .crash
  | (k, some v) :: rest, currencies => currenciesLoop rest (currencies ++ [{ v with Name := k }])

def GetCurrencies (ro : RangeOrder) (sys : Sys) (w : World) : Outcome (List Currency) × World :=
  let r := publicCall sys (decMap (decPtr ({} : Currency) Currency.setField) [])
    "returnCurrencies" [] w
  (r.1.andThen fun currenciesMap => currenciesLoop (ro.visit currenciesMap) [], r.2)

/-- One loop of `GetLoanOrders` over the decoded offers or demands. -/
def loansLoop (env : Env) : List (Ptr loanFromJSON) → List (Loan env.F64) →
    Outcome (List (Loan env.F64))
  | [], loans => .ok loans
  | none :: _, _ => .crash
  | some o :: rest, loans =>
    match env.parseFloat o.Rate with
    | none => loansLoop env rest loans
    | some rate =>
      match env.parseFloat o.Amount with
      | none => loansLoop env rest loans
      | some amount =>
        loansLoop env rest (loans ++ [{
          Rate := rate, Amount := amount, RangeMin := o.RangeMin, RangeMax := o.RangeMax }])

def GetLoanOrders (env : Env) (sys : Sys) (currency : String) (w : World) :
    Outcome (LoanOrders env.F64) × World :=
  let r := publicCall sys (decStruct loanOrdersFromJSON.setField ({} : loanOrdersFromJSON))
    "returnLoanOrders" [{ key := "currency", value := currency }] w
  (r.1.andThen fun l =>
    (loansLoop env l.Offers.elems []).andThen fun offers =>
      (loansLoop env l.Demands.elems []).andThen fun demands =>
        .ok { Offers := offers, Demands := demands }, r.2)

/-- The loop of `GetBalances` over the visited entries. -/
def balancesLoop (env : Env) : List (String × String) → List (Balance env.F64) →
    List (Balance env.F64)
  | [], balances => balances
  | (k, v) :: rest, balances =>
    match env.parseFloat v with
    | none => balancesLoop env rest balances
    | some amount => balancesLoop env rest (balances ++ [{ Currency := k, Amount := amount }])

def GetBalances (env : Env) (ro : RangeOrder) (sys : Sys) (c : client) (w : World) :
    Outcome (List (Balance env.F64)) × World :=
  let r := tradeCall env sys c (decMap (decString "") []) "returnBalances" [] w
  (r.1.andThen fun balancesFromJSON => .ok (balancesLoop env (ro.visit balancesFromJSON) []), r.2)

/-- The loop of `GetCompleteBalances` over the visited entries. -/
def completeBalancesLoop (env : Env) : List (String × Ptr balanceFromJSON) →
    List (CompleteBalance env.F64) → Outcome (List (CompleteBalance env.F64))
  | [], completeBalances => .ok completeBalances
  | (_, none) :: _, _ => .crash
  | (k, some v) :: rest, completeBalances =>
    match env.parseFloat v.Available with
    | none => completeBalancesLoop env rest completeBalances
    | some a =>
      match env.parseFloat v.OnOrders with
      | none => completeBalancesLoop env rest completeBalances
      | some o =>
        match env.parseFloat v.BTCValue with
        | none => completeBalancesLoop env rest completeBalances
        | some b =>
          completeBalancesLoop env rest (completeBalances ++ [{
            Currency := k, Available := a, OnOrders := o, BTCValue := b }])

def GetCompleteBalances (env : Env) (ro : RangeOrder) (sys : Sys) (c : client)
    (account : String) (w : World) : Outcome (List (CompleteBalance env.F64)) × World :=
  let params : List postParam :=
    if account ≠ "" then [{ key := "account", value := account }] else []
  let r := tradeCall env sys c (decMap (decPtr ({} : balanceFromJSON) balanceFromJSON.setField) [])
    "returnCompleteBalances" params w
  (r.1.andThen fun balancesFromJSON =>
    completeBalancesLoop env (ro.visit balancesFromJSON) [], r.2)

/-! ## A concrete environment for evaluating the model

Floats are finite decimals in canonical form.  The parser accepts an optional sign, digits and
an optional fraction, which is how `strconv.ParseFloat` reads the literals of the examples
below; it rejects every text that is not a number. -/

/-- A finite decimal: sign, integer digits without leading zeros, fraction digits without
trailing zeros. -/
structure Decimal where
  neg : Bool
  whole : List Char
  frac : List Char
deriving DecidableEq, Repr

/-- Whether all characters are decimal digits. -/
def allDigits : List Char → Bool
  | [] => true
  | c :: cs => (48 ≤ c.toNat && c.toNat ≤ 57) && allDigits cs

/-- The text before the first point and, when there is a point, the text after it. -/
def splitPoint : List Char → List Char × Option (List Char)
  | [] => ([], none)
  | c :: cs =>
    if c = '.' then ([], some cs)
    else ((c :: (splitPoint cs).1), (splitPoint cs).2)

/-- Removal of leading zeros, keeping the last digit. -/
def dropLeadingZeros : List Char → List Char
  | [] => []
  | [c] => [c]
  | c :: d :: cs => if c = '0' then dropLeadingZeros (d :: cs) else c :: d :: cs

/-- Removal of trailing zeros. -/
def dropTrailingZeros : List Char → List Char
  | [] => []
  | c :: cs =>
    match dropTrailingZeros cs with
    | [] => if c = '0' then [] else [c]
    | ds => c :: ds

/-- An unsigned decimal literal. -/
def Decimal.parseUnsigned (neg : Bool) (cs : List Char) : Option Decimal :=
  match splitPoint cs with
  | (w, none) =>
    if w ≠ [] ∧ allDigits w = true then some ⟨neg, dropLeadingZeros w, []⟩ else none
  | (w, some f) =>
    if w ≠ [] ∧ f ≠ [] ∧ allDigits w = true ∧ allDigits f = true then
      some ⟨neg, dropLeadingZeros w, dropTrailingZeros f⟩
    else none

/-- A signed decimal literal. -/
def Decimal.parse (s : String) : Option Decimal :=
  match s.toList with
  | [] => none
  | c :: cs =>
    if c = '-' then Decimal.parseUnsigned true cs
    else if c = '+' then Decimal.parseUnsigned false cs
    else Decimal.parseUnsigned false (c :: cs)

/-- The shortest text of a decimal. -/
def Decimal.format (d : Decimal) : String :=
  String.mk ((if d.neg then ['-'] else []) ++ d.whole ++
    (match d.frac with
     | [] => []
     | f => '.' :: f))

/-- The environment with decimal floats; its digest is the list of the byte values of the
secret followed by those of the content, which keeps evaluation small. -/
def Env.decimal : Env where
  F64 := Decimal
  parseFloat := Decimal.parse
  formatFloat := Decimal.format
  hmacSum := fun secret content =>
    ((secret.toList ++ content.toList).map utf8Bytes).flatten

/-- A world that answers every request with the body `j` and whose clock reads `t₀ + n` at the
`n`-th reading. -/
def Sys.answering (j : JSON) : Sys where
  roundTrip := fun _ _ => .body (some j)
  clock := fun n => 1500000000000000000 + n

/-- A world that answers every request with the body `j` and whose clock stands still. -/
def Sys.stalled (j : JSON) : Sys where
  roundTrip := fun _ _ => .body (some j)
  clock := fun _ => 1500000000000000000

/-! ## Reference definitions, in the words of the specification -/

/-- The order a source record stands for: the record has at least two elements, the first
parses as a number (the price) and the second is a float (the amount). -/
def recordOrder (env : Env) (a : List (Iface env.F64)) : Option (Order env.F64) :=
  match a with
  | price :: .float amount :: _ =>
    match env.parseFloat (sprintV env price) with
    | some value => some { Value := value, Amount := amount }
    | none => none
  | _ => none

/-- The trade a decoded record stands for: its rate, amount and total all parse. -/
def recordTrade (env : Env) (t : tradeHistoryFromJSON) : Option (TradeHistory env.F64) :=
  match env.parseFloat t.Rate, env.parseFloat t.Amount, env.parseFloat t.Total with
  | some rate, some amount, some total =>
    some { GlobalTradeID := t.GlobalTradeID, TradeID := t.TradeID, Date := t.Date,
           Type_ := t.Type_, Rate := rate, Amount := amount, Total := total }
  | _, _, _ => none

/-- The error object the exchange answers with in place of a result. -/
def errorObject (message : String) : JSON := .obj [("error", .str message)]

/-- The value of the last member of `kvs` with key `k`: the one a decoder keeps. -/
def lastMember : List (String × JSON) → String → Option JSON
  | [], _ => none
  | (k1, v) :: kvs, k =>
    match lastMember kvs k with
    | some x => some x
    | none => if k1 = k then some v else none

/-- The value a JSON object gives to the key `k`; a value that is not an object has no member. -/
def JSON.member : JSON → String → Option JSON
  | .obj kvs, k => lastMember kvs k
  | _, _ => none

/-- The top-level keys of a payload. -/
def JSON.keys : JSON → List String
  | .obj kvs => kvs.map Prod.fst
  | _ => []

/-- The mapping an object of strings denotes, added to `acc`; `none` when some value is not a
string. -/
def objectOfStrings : List (String × JSON) → GoMap String → Option (GoMap String)
  | [], acc => some acc
  | (k, .str s) :: kvs, acc => objectOfStrings kvs (GoMap.set acc k s)
  | _ :: _, _ => none

/-- Whether a member value is a string or null. -/
def stringOrNull : JSON → Bool
  | .str _ => true
  | .null => true
  | _ => false

/-- Whether all member values are strings or null. -/
def allStringOrNull : List (String × JSON) → Bool
  | [] => true
  | (_, v) :: kvs => stringOrNull v && allStringOrNull kvs

/-- The values the volume decoder takes for an entry: a bare string, or an object whose values
are strings or null. -/
def volumeEntryAccepted : JSON → Bool
  | .str _ => true
  | .obj members => allStringOrNull members
  | _ => false

/-- The 24-hour volume payload of the specification's example. -/
def volumeExample : JSON :=
  .obj [("totalBTC", .str "7364.48"), ("BTC_LTC", .obj [("BTC", .str "2.23"), ("LTC", .str "87.10")])]

/-- A 24-hour volume payload whose total is a number instead of a string. -/
def volumeWithNumber : JSON :=
  .obj [("BTC_LTC", .obj [("BTC", .str "2.23")]), ("totalBTC", .num "7364.48")]

/-- A 24-hour volume payload with a market whose volume is null. -/
def volumeWithNullVolume : JSON := .obj [("BTC_LTC", .obj [("BTC", .null)])]

/-- The amount text a balances payload gives for the key `k`: the string of the member, or the
empty string when the member is null. -/
def balanceText (j : JSON) (k : String) : Option String := (j.member k).bind (decString "")

/-- A ticker payload whose record carries an identifier of its own, different from its key. -/
def tickersExample : JSON :=
  .obj [("BTC_LTC", .obj [("Currency", .str "USDT_BTC"), ("id", .num "50"), ("last", .str "0.5")]),
        ("BTC_NXT", .obj [("last", .str "0.1")])]

/-- A currencies payload whose record carries a `name` field different from its key. -/
def currenciesExample : JSON :=
  .obj [("BTC", .obj [("id", .num "28"), ("name", .str "Bitcoin"), ("txFee", .str "0.0005")])]

/-- A balances payload with one amount that does not parse. -/
def balancesExample : JSON := .obj [("BTC", .str "1.5"), ("LTC", .str "n/a")]

/-- The value of the last post parameter with key `k`. -/
def lastParam : List postParam → String → Option String
  | [], _ => none
  | p :: ps, k =>
    match lastParam ps k with
    | some v => some v
    | none => if p.key = k then some p.value else none

/-- The nonce of a form, read as the exchange reads it: the integer its single `nonce` value
denotes. -/
def nonceOf (form : Values) : Option Int :=
  match GoMap.get form "nonce" with
  | some [n] => ParseInt n
  | _ => none

/-- The string a member value leaves in a field that holds `old`: its own when it is a string. -/
def keepString (old : String) : JSON → String
  | .str s => s
  | _ => old

/-- The integer a member value leaves in a field that holds `old`: its own when it is an
integer literal. -/
def keepInt (old : Int) : JSON → Int
  | .num lit => (ParseInt lit).getD old
  | _ => old

/-- The string a payload object gives to the field `name` of a struct that holds `old`: the
string of the last member whose key selects the field and whose value is a string. -/
def payloadString (name : String) : String → List (String × JSON) → String
  | old, [] => old
  | old, (k, v) :: kvs =>
    payloadString name (if fieldMatches name k then keepString old v else old) kvs

/-- The integer a payload object gives to the field `name` of a struct that holds `old`: the
value of the last member whose key selects the field and whose value is an integer literal. -/
def payloadInt (name : String) : Int → List (String × JSON) → Int
  | old, [] => old
  | old, (k, v) :: kvs =>
    payloadInt name (if fieldMatches name k then keepInt old v else old) kvs

/-- An order-book payload that carries a `pair` field of its own. -/
def orderBookExample : JSON :=
  .obj [("pair", .str "USDT_BTC"), ("asks", .arr [.arr [.str "102.5", .num "3.0"]]),
        ("bids", .arr []), ("isFrozen", .str "1"), ("seq", .num "42")]

/-! ## Properties -/

theorem convertRows_eq (env : Env) (rows : List (List (Iface env.F64)))
    (orders : List (Order env.F64)) :
    convertRows env rows orders = orders ++ rows.filterMap (recordOrder env) := by
  induction rows generalizing orders with
  | nil => simp [convertRows]
  | cons a rest ih =>
    rcases a with _ | ⟨a0, _ | ⟨a1, tl⟩⟩
    · simp [convertRows, recordOrder, ih]
    · simp [convertRows, recordOrder, ih]
    · cases hp : env.parseFloat (sprintV env a0) with
      | none => cases a1 <;> simp [convertRows, recordOrder, ih, hp]
      | some value => cases a1 <;> simp [convertRows, recordOrder, ih, hp]

theorem recordOrder_eq_some_iff (env : Env) (a : List (Iface env.F64)) (ord : Order env.F64) :
    recordOrder env a = some ord ↔
      2 ≤ a.length ∧
        (∃ price, a[0]? = some price ∧ env.parseFloat (sprintV env price) = some ord.Value) ∧
        a[1]? = some (.float ord.Amount) := by
  rcases a with _ | ⟨a0, _ | ⟨a1, tl⟩⟩
  · simp [recordOrder]
  · simp [recordOrder]
  · obtain ⟨v, m⟩ := ord
    cases hp : env.parseFloat (sprintV env a0) with
    | none => cases a1 <;> simp [recordOrder, hp]
    | some value =>
      cases a1 <;> simp [recordOrder, hp]

/-- C1: for every depth, `GetOrderBook` with the pair `"all"` returns the precondition error
and no order book, and leaves the world as it was: no request is built or sent, whatever the
network would have answered. -/
theorem GetOrderBook_all_is_rejected (env : Env) (sys : Sys) (depth : Nat) (w : World) :
    GetOrderBook env sys "all" depth w =
      (.fail (.new "use GetAllOrderBook to get all order book"), w) := by
  simp [GetOrderBook]

/-- C2: `convertOrderBook` returns, on each side, the orders of the source records that have at
least two elements, a first element that parses as a number and a second element that is a
float, in upstream order, with `Value` the parsed price and `Amount` the amount; every other
record is dropped and the conversion does not fail.  On the asks
`[["102.5", 3.0], ["bad", 1.0], [99.0]]` the result has the single entry `{102.5, 3.0}`. -/
theorem convertOrderBook_keeps_valid_records :
    (∀ (env : Env) (o : orderBookFromJSON env.F64),
      convertOrderBook env (some o) =
        .ok { Asks := o.Asks.filterMap (recordOrder env),
              Bids := o.Bids.filterMap (recordOrder env),
              IsFrozen := o.IsFrozen, Seq := o.Seq }) ∧
    (∀ (env : Env) (a : List (Iface env.F64)) (ord : Order env.F64),
      recordOrder env a = some ord ↔
        2 ≤ a.length ∧
          (∃ price, a[0]? = some price ∧ env.parseFloat (sprintV env price) = some ord.Value) ∧
          a[1]? = some (.float ord.Amount)) ∧
    (decStruct (orderBookFromJSON.setField Env.decimal) {}
        (.obj [("asks", .arr [.arr [.str "102.5", .num "3.0"], .arr [.str "bad", .num "1.0"],
          .arr [.num "99.0"]])])).map (fun o => convertOrderBook Env.decimal (some o)) =
      some (.ok { Asks := [{ Value := ⟨false, ['1', '0', '2'], ['5']⟩,
                             Amount := ⟨false, ['3'], []⟩ }] }) := by
  refine ⟨?_, recordOrder_eq_some_iff, rfl⟩
  intro env o
  simp [convertOrderBook, convertRows_eq]

/-- C3: an error object in place of the expected payload is not reported as a failure by
`GetOrderBook`, `GetLoanOrders`, `GetBalances` and `Get24hVolume`: each returns a result (empty,
or holding the error message as a volume total), while `GetTickers` and `GetTradeHistory` report
the generic decode failure on the same payload. -/
theorem error_object_is_accepted_by_four_operations :
    (GetOrderBook Env.decimal (Sys.answering (errorObject "Invalid command.")) "BTC_LTC" 10 {}).1
      = .ok { Pair := "BTC_LTC" } ∧
    (GetLoanOrders Env.decimal (Sys.answering (errorObject "Invalid command.")) "BTC" {}).1
      = .ok {} ∧
    (GetBalances Env.decimal RangeOrder.insertion (Sys.answering (errorObject "Invalid command."))
      (New "key" "secret") {}).1 = .ok [] ∧
    (Get24hVolume RangeOrder.insertion (Sys.answering (errorObject "Invalid command.")) {}).1
      = .ok { PrimaryCurrenciesTotals := [("error", "Invalid command.")] } ∧
    (GetTickers RangeOrder.insertion (Sys.answering (errorObject "Invalid command.")) {}).1
      = .fail (.new "find the poloniex error in the returned map") ∧
    (GetTradeHistory Env.decimal (Sys.answering (errorObject "Invalid command.")) "BTC_LTC" 0 0
      {}).1 = .fail (.new "find the poloniex error in the returned map") :=
  ⟨rfl, rfl, rfl, rfl, rfl, rfl⟩

theorem tradeHistoryLoop_eq (env : Env) (records : List tradeHistoryFromJSON)
    (acc : List (TradeHistory env.F64)) :
    tradeHistoryLoop env (records.map some) acc = .ok (acc ++ records.filterMap (recordTrade env)) := by
  induction records generalizing acc with
  | nil => simp [tradeHistoryLoop]
  | cons t rest ih =>
    simp only [List.map_cons, tradeHistoryLoop, List.filterMap_cons, recordTrade]
    cases env.parseFloat t.Rate <;> cases env.parseFloat t.Amount <;>
      cases env.parseFloat t.Total <;> simp [ih]

/-- The trade-history example of the specification: the record whose amount is `"abc"` is
dropped and the valid record is converted. -/
theorem GetTradeHistory_specification_example :
    (GetTradeHistory Env.decimal (Sys.answering (.arr [
        .obj [("rate", .str "0.015"), ("amount", .str "abc"), ("total", .str "1.0")],
        .obj [("globalTradeID", .num "7"), ("tradeID", .num "3"), ("date", .str "2014-09-12"),
              ("type", .str "buy"), ("rate", .str "0.015"), ("amount", .str "10"),
              ("total", .str "0.15")]]))
      "BTC_NXT" 0 0 {}).1 =
      .ok [{ GlobalTradeID := 7, TradeID := 3, Date := "2014-09-12", Type_ := "buy",
             Rate := ⟨false, ['0'], ['0', '1', '5']⟩, Amount := ⟨false, ['1', '0'], []⟩,
             Total := ⟨false, ['0'], ['1', '5']⟩ }] :=
  rfl

/-- C4: on the trade-history payload `[null]`, which decodes as a list of one nil record,
`GetTradeHistory` panics on the nil pointer instead of dropping the record, whatever the float
parser; also when the null record follows a valid one. -/
theorem GetTradeHistory_null_record_panics (env : Env) :
    (GetTradeHistory env (Sys.answering (.arr [.null])) "BTC_NXT" 0 0 {}).1 = .crash ∧
    (GetTradeHistory Env.decimal (Sys.answering (.arr [
        .obj [("rate", .str "0.015"), ("amount", .str "10"), ("total", .str "0.15")], .null]))
      "BTC_NXT" 0 0 {}).1 = .crash :=
  ⟨rfl, rfl⟩

/-! ### Maps -/

theorem GoMap.get_set {V : Type} (m : GoMap V) (k k2 : String) (v : V) :
    GoMap.get (GoMap.set m k v) k2 = if k = k2 then some v else GoMap.get m k2 := by
  induction m with
  | nil => simp [GoMap.set, GoMap.get]
  | cons e m ih =>
    obtain ⟨k1, v1⟩ := e
    by_cases h1 : k1 = k
    · subst h1
      by_cases h2 : k1 = k2 <;> simp [GoMap.set, GoMap.get, h2]
    · by_cases h2 : k1 = k2
      · subst h2
        simp [GoMap.set, GoMap.get, h1, Ne.symm h1]
      · simp [GoMap.set, GoMap.get, h1, h2, ih]

theorem GoMap.get_eq_none_iff {V : Type} (m : GoMap V) (k : String) :
    GoMap.get m k = none ↔ k ∉ GoMap.keys m := by
  induction m with
  | nil => simp [GoMap.get, GoMap.keys]
  | cons e m ih =>
    obtain ⟨k1, v1⟩ := e
    by_cases h : k1 = k
    · simp [GoMap.get, GoMap.keys, h]
    · simp only [GoMap.keys] at ih
      simp [GoMap.get, GoMap.keys, h, ih, Ne.symm h]

theorem GoMap.mem_keys_iff {V : Type} (m : GoMap V) (k : String) :
    k ∈ GoMap.keys m ↔ ∃ v, GoMap.get m k = some v := by
  rw [← not_iff_not, ← GoMap.get_eq_none_iff]
  cases GoMap.get m k <;> simp

theorem GoMap.keys_set {V : Type} (m : GoMap V) (k : String) (v : V) :
    GoMap.keys (GoMap.set m k v) = if k ∈ GoMap.keys m then GoMap.keys m else GoMap.keys m ++ [k] := by
  induction m with
  | nil => simp [GoMap.set, GoMap.keys]
  | cons e m ih =>
    obtain ⟨k1, v1⟩ := e
    simp only [GoMap.keys] at ih
    by_cases h : k1 = k
    · simp [GoMap.set, GoMap.keys, h]
    · by_cases hk : k ∈ List.map Prod.fst m
      · simp [GoMap.set, GoMap.keys, h, ih, hk]
      · simp [GoMap.set, GoMap.keys, h, ih, hk, Ne.symm h]

theorem GoMap.nodup_keys_set {V : Type} (m : GoMap V) (k : String) (v : V)
    (h : (GoMap.keys m).Nodup) : (GoMap.keys (GoMap.set m k v)).Nodup := by
  rw [GoMap.keys_set]
  by_cases hk : k ∈ GoMap.keys m
  · simpa [hk] using h
  · simp only [hk, if_false]
    exact List.Nodup.append h (List.nodup_singleton k) (by simpa using hk)

theorem GoMap.mem_iff_get {V : Type} (m : GoMap V) (h : (GoMap.keys m).Nodup) (k : String) (v : V) :
    (k, v) ∈ m ↔ GoMap.get m k = some v := by
  induction m with
  | nil => simp [GoMap.get]
  | cons e m ih =>
    obtain ⟨k1, v1⟩ := e
    simp only [GoMap.keys, List.map_cons, List.nodup_cons] at h
    have ih2 := ih h.2
    by_cases hk : k1 = k
    · subst hk
      have hnot : (k1, v) ∉ m := fun hmem => h.1 (List.mem_map.mpr ⟨(k1, v), hmem, rfl⟩)
      simp only [GoMap.get, if_true, List.mem_cons, Prod.mk.injEq, true_and, Option.some.injEq]
      constructor
      · rintro (h1 | h1)
        · exact h1.symm
        · exact absurd h1 hnot
      · intro h1
        exact Or.inl h1.symm
    · simp [GoMap.get, hk, ih2, Ne.symm hk]

theorem GoMap.get_perm {V : Type} (m m2 : GoMap V) (hp : List.Perm m2 m)
    (h : (GoMap.keys m).Nodup) (k : String) : GoMap.get m2 k = GoMap.get m k := by
  have h2 : (GoMap.keys m2).Nodup := (List.Perm.nodup_iff (List.Perm.map Prod.fst hp)).mpr h
  cases hg : GoMap.get m k with
  | none =>
    rw [GoMap.get_eq_none_iff] at hg ⊢
    intro hmem
    exact hg ((List.Perm.mem_iff (List.Perm.map Prod.fst hp)).mp hmem)
  | some v =>
    rw [← GoMap.mem_iff_get m h] at hg
    rw [← GoMap.mem_iff_get m2 h2]
    exact (List.Perm.mem_iff hp).mpr hg

theorem decMapMembers_get {V : Type} (dec : JSON → Option V) (kvs : List (String × JSON))
    (m r : GoMap V) (h : decMapMembers dec m kvs = some r) (k : String) :
    GoMap.get r k = match lastMember kvs k with
      | some v => dec v
      | none => GoMap.get m k := by
  induction kvs generalizing m with
  | nil =>
    simp only [decMapMembers, Option.some.injEq] at h
    simp [lastMember, h]
  | cons e kvs ih =>
    obtain ⟨k1, v1⟩ := e
    simp only [decMapMembers] at h
    cases hd : dec v1 with
    | none => simp [hd] at h
    | some x =>
      simp only [hd] at h
      rw [ih _ h]
      cases hl : lastMember kvs k with
      | some y => simp [lastMember, hl]
      | none =>
        by_cases hk : k1 = k
        · simp [lastMember, hl, hk, GoMap.get_set, hd]
        · simp [lastMember, hl, hk, GoMap.get_set]

theorem decMapMembers_nodup {V : Type} (dec : JSON → Option V) (kvs : List (String × JSON))
    (m r : GoMap V) (h : decMapMembers dec m kvs = some r) (hm : (GoMap.keys m).Nodup) :
    (GoMap.keys r).Nodup := by
  induction kvs generalizing m with
  | nil =>
    simp only [decMapMembers, Option.some.injEq] at h
    exact h ▸ hm
  | cons e kvs ih =>
    obtain ⟨k1, v1⟩ := e
    simp only [decMapMembers] at h
    cases hd : dec v1 with
    | none => simp [hd] at h
    | some x =>
      simp only [hd] at h
      exact ih _ h (GoMap.nodup_keys_set m k1 x hm)

theorem lastMember_eq_none_iff (kvs : List (String × JSON)) (k : String) :
    lastMember kvs k = none ↔ k ∉ kvs.map Prod.fst := by
  induction kvs with
  | nil => simp [lastMember]
  | cons e kvs ih =>
    obtain ⟨k1, v1⟩ := e
    cases hl : lastMember kvs k with
    | some y =>
      have : k ∈ kvs.map Prod.fst := by
        by_contra hc
        rw [ih.mpr hc] at hl
        cases hl
      simp [lastMember, hl, this]
    | none =>
      have hn := ih.mp hl
      by_cases hk : k1 = k
      · simp [lastMember, hl, hk]
      · simp only [List.map_cons, List.mem_cons, not_or]
        simp [lastMember, hl, hk, hn, Ne.symm hk]

theorem decMap_nodup {V : Type} (dec : JSON → Option V) (j : JSON) (m : GoMap V)
    (h : decMap dec [] j = some m) : (GoMap.keys m).Nodup := by
  cases j with
  | obj kvs => exact decMapMembers_nodup dec kvs [] m h (by simp [GoMap.keys])
  | null =>
    simp only [decMap, Option.some.injEq] at h
    subst h
    simp [GoMap.keys]
  | _ => simp [decMap] at h

theorem decMap_get {V : Type} (dec : JSON → Option V) (j : JSON) (m : GoMap V)
    (h : decMap dec [] j = some m) (k : String) :
    GoMap.get m k = match j.member k with
      | some v => dec v
      | none => none := by
  cases j with
  | obj kvs =>
    have := decMapMembers_get dec kvs [] m h k
    simpa [JSON.member, GoMap.get] using this
  | null =>
    simp only [decMap, Option.some.injEq] at h
    subst h
    simp [JSON.member, GoMap.get]
  | _ => simp [decMap] at h

/-! ### The 24-hour volume -/

theorem volumeLoop_ok (l : List (String × Ptr JSON)) (hnd : (GoMap.keys l).Nodup)
    (acc r : Volume24h) (h : volumeLoop l acc = .ok r) (k : String) :
    (GoMap.get l k = none →
      GoMap.get r.Markets k = GoMap.get acc.Markets k ∧
      GoMap.get r.PrimaryCurrenciesTotals k = GoMap.get acc.PrimaryCurrenciesTotals k) ∧
    (∀ p, GoMap.get l k = some p → ∃ raw, p = some raw ∧
      ((∃ mv, decMap (decString "") [] raw = some mv ∧ GoMap.get r.Markets k = some mv ∧
          GoMap.get r.PrimaryCurrenciesTotals k = GoMap.get acc.PrimaryCurrenciesTotals k) ∨
       (decMap (decString "") [] raw = none ∧ ∃ s, decString "" raw = some s ∧
          GoMap.get r.PrimaryCurrenciesTotals k = some s ∧
          GoMap.get r.Markets k = GoMap.get acc.Markets k))) := by
  induction l generalizing acc with
  | nil =>
    simp only [volumeLoop, Outcome.ok.injEq] at h
    subst h
    simp [GoMap.get]
  | cons e rest ih =>
    obtain ⟨k0, p0⟩ := e
    simp only [GoMap.keys, List.map_cons, List.nodup_cons] at hnd
    have hrest : GoMap.get rest k0 = none := (GoMap.get_eq_none_iff rest k0).mpr hnd.1
    cases p0 with
    | none => simp [volumeLoop] at h
    | some raw =>
      simp only [volumeLoop] at h
      cases hm : decMap (decString "") [] raw with
      | some mv =>
        simp only [hm] at h
        have ih2 := ih hnd.2 _ h
        by_cases hk : k0 = k
        · subst hk
          have h1 := ih2.1 hrest
          simp only [GoMap.get_set, if_true] at h1
          simp only [GoMap.get, if_true]
          refine ⟨fun hc => (by cases hc), ?_⟩
          intro p hp
          cases hp
          exact ⟨raw, rfl, Or.inl ⟨mv, hm, h1.1, h1.2⟩⟩
        · simp only [GoMap.get, hk, if_false]
          simp only [GoMap.get_set, hk, if_false] at ih2
          exact ih2
      | none =>
        simp only [hm] at h
        cases hs : decString "" raw with
        | none => simp [hs] at h
        | some s =>
          simp only [hs] at h
          have ih2 := ih hnd.2 _ h
          by_cases hk : k0 = k
          · subst hk
            have h1 := ih2.1 hrest
            simp only [GoMap.get_set, if_true] at h1
            simp only [GoMap.get, if_true]
            refine ⟨fun hc => (by cases hc), ?_⟩
            intro p hp
            cases hp
            exact ⟨raw, rfl, Or.inr ⟨hm, s, hs, h1.2, h1.1⟩⟩
          · simp only [GoMap.get, hk, if_false]
            simp only [GoMap.get_set, hk, if_false] at ih2
            exact ih2

theorem objectOfStrings_decMapMembers (members : List (String × JSON)) (acc mv : GoMap String)
    (h : objectOfStrings members acc = some mv) :
    decMapMembers (decString "") acc members = some mv := by
  induction members generalizing acc with
  | nil => simpa [objectOfStrings, decMapMembers] using h
  | cons e members ih =>
    obtain ⟨k, v⟩ := e
    cases v with
    | str s =>
      simp only [objectOfStrings] at h
      simp [decMapMembers, decString, ih _ h]
    | _ => simp [objectOfStrings] at h

theorem decRawMessage_eq_some (v : JSON) : ∃ p, decRawMessage v = some p := by
  cases v <;> simp [decRawMessage]

theorem Get24hVolume_decoded (ro : RangeOrder) (sys : Sys) (w : World) (j : JSON)
    (hbody : sys.roundTrip w.sent.length (publicRequest "return24hVolume" []) = .body (some j)) :
    (Get24hVolume ro sys w).1 =
      match decMap decRawMessage [] j with
      | some dest => volumeLoop (ro.visit dest) {}
      | none => .fail (.new "find the poloniex error in the returned map") := by
  simp only [Get24hVolume, publicCall, processRequest, hbody]
  cases decMap decRawMessage [] j <;> rfl

/-- C5: whenever `Get24hVolume` succeeds, the top-level keys of the payload are exactly the keys
of the two result mappings together, no key is in both, a key whose value is an object of
strings is in `Markets` with the mapping the object denotes, and a key whose value is a string is
in `PrimaryCurrenciesTotals` with that string. -/
theorem Get24hVolume_splits_keys (ro : RangeOrder) (sys : Sys) (w : World) (j : JSON)
    (volume : Volume24h)
    (hbody : sys.roundTrip w.sent.length (publicRequest "return24hVolume" []) = .body (some j))
    (hok : (Get24hVolume ro sys w).1 = .ok volume) :
    (∀ k, k ∈ j.keys ↔
      (k ∈ GoMap.keys volume.Markets ∨ k ∈ GoMap.keys volume.PrimaryCurrenciesTotals)) ∧
    (∀ k, ¬ (k ∈ GoMap.keys volume.Markets ∧ k ∈ GoMap.keys volume.PrimaryCurrenciesTotals)) ∧
    (∀ k members mv, j.member k = some (.obj members) → objectOfStrings members [] = some mv →
      GoMap.get volume.Markets k = some mv) ∧
    (∀ k s, j.member k = some (.str s) → GoMap.get volume.PrimaryCurrenciesTotals k = some s) := by
  rw [Get24hVolume_decoded ro sys w j hbody] at hok
  cases hdec : decMap decRawMessage [] j with
  | none => simp [hdec] at hok
  | some dest =>
    simp only [hdec] at hok
    have hnd := decMap_nodup decRawMessage j dest hdec
    have hndv : (GoMap.keys (ro.visit dest)).Nodup :=
      (List.Perm.nodup_iff (List.Perm.map Prod.fst (ro.perm dest))).mpr hnd
    have hget : ∀ k, GoMap.get (ro.visit dest) k = match j.member k with
        | some v => decRawMessage v
        | none => none := fun k => by
      rw [GoMap.get_perm dest (ro.visit dest) (ro.perm dest) hnd k, decMap_get decRawMessage j dest hdec k]
    have hloop := volumeLoop_ok (ro.visit dest) hndv {} volume hok
    have hkeys : ∀ k, k ∈ j.keys ↔ ∃ v, j.member k = some v := fun k => by
      cases j with
      | obj kvs =>
        simp only [JSON.keys, JSON.member]
        rw [← not_iff_not, ← lastMember_eq_none_iff]
        cases lastMember kvs k <;> simp
      | _ => simp [JSON.keys, JSON.member]
    -- the state of every key in the result
    have hstate : ∀ k,
        (j.member k = none ∧ GoMap.get volume.Markets k = none ∧
          GoMap.get volume.PrimaryCurrenciesTotals k = none) ∨
        (∃ raw mv, j.member k = some raw ∧ decMap (decString "") [] raw = some mv ∧
          GoMap.get volume.Markets k = some mv ∧
          GoMap.get volume.PrimaryCurrenciesTotals k = none) ∨
        (∃ raw s, j.member k = some raw ∧ decMap (decString "") [] raw = none ∧
          decString "" raw = some s ∧ GoMap.get volume.PrimaryCurrenciesTotals k = some s ∧
          GoMap.get volume.Markets k = none) := fun k => by
      have hg := hget k
      cases hmem : j.member k with
      | none =>
        simp only [hmem] at hg
        have := (hloop k).1 hg
        exact Or.inl ⟨rfl, by simpa [GoMap.get] using this.1, by simpa [GoMap.get] using this.2⟩
      | some v =>
        simp only [hmem] at hg
        obtain ⟨p, hp⟩ := decRawMessage_eq_some v
        rw [hp] at hg
        obtain ⟨raw, hraw, hcases⟩ := (hloop k).2 p hg
        have hv : raw = v := by
          subst hraw
          cases v <;> simp_all [decRawMessage]
        subst hv
        rcases hcases with ⟨mv, h1, h2, h3⟩ | ⟨h1, s, h2, h3, h4⟩
        · exact Or.inr (Or.inl ⟨raw, mv, rfl, h1, h2, by simpa [GoMap.get] using h3⟩)
        · exact Or.inr (Or.inr ⟨raw, s, rfl, h1, h2, h3, by simpa [GoMap.get] using h4⟩)
    refine ⟨?_, ?_, ?_, ?_⟩
    · intro k
      rw [hkeys, GoMap.mem_keys_iff, GoMap.mem_keys_iff]
      rcases hstate k with ⟨h1, h2, h3⟩ | ⟨raw, mv, h1, _, h2, h3⟩ | ⟨raw, s, h1, _, _, h2, h3⟩ <;>
        simp [h1, h2, h3]
    · intro k
      rw [GoMap.mem_keys_iff, GoMap.mem_keys_iff]
      rcases hstate k with ⟨h1, h2, h3⟩ | ⟨raw, mv, h1, _, h2, h3⟩ | ⟨raw, s, h1, _, _, h2, h3⟩ <;>
        simp [h2, h3]
    · intro k members mv hmem hobj
      have hdm : decMap (decString "") [] (.obj members) = some mv :=
        objectOfStrings_decMapMembers members [] mv hobj
      rcases hstate k with ⟨h1, _, _⟩ | ⟨raw, mv2, h1, h4, h2, _⟩ | ⟨raw, s, h1, h4, _, _, _⟩
      · rw [hmem] at h1
        cases h1
      · rw [hmem] at h1
        cases h1
        rw [hdm] at h4
        cases h4
        exact h2
      · rw [hmem] at h1
        cases h1
        rw [hdm] at h4
        cases h4
    · intro k s hmem
      rcases hstate k with ⟨h1, _, _⟩ | ⟨raw, mv2, h1, h4, _, _⟩ | ⟨raw, s2, h1, _, h4, h2, _⟩
      · rw [hmem] at h1
        cases h1
      · rw [hmem] at h1
        cases h1
        simp [decMap] at h4
      · rw [hmem] at h1
        cases h1
        simp only [decString, Option.some.injEq] at h4
        subst h4
        exact h2

/-- Witness of C5 on the payload `volumeExample` of the specification: the call succeeds with
`PrimaryCurrenciesTotals == {"totalBTC": "7364.48"}` and
`Markets == {"BTC_LTC": {"BTC": "2.23", "LTC": "87.10"}}`, as the theorem requires. -/
theorem Get24hVolume_splits_keys_witness :
    (Get24hVolume RangeOrder.insertion (Sys.answering volumeExample) {}).1 =
      .ok { PrimaryCurrenciesTotals := [("totalBTC", "7364.48")],
            Markets := [("BTC_LTC", [("BTC", "2.23"), ("LTC", "87.10")])] } ∧
    GoMap.get [("BTC_LTC", [("BTC", "2.23"), ("LTC", "87.10")])] "BTC_LTC" =
      some [("BTC", "2.23"), ("LTC", "87.10")] ∧
    GoMap.get [("totalBTC", "7364.48")] "totalBTC" = some "7364.48" ∧
    ¬ ("totalBTC" ∈ GoMap.keys [("BTC_LTC", [("BTC", "2.23"), ("LTC", "87.10")])] ∧
       "totalBTC" ∈ GoMap.keys [("totalBTC", "7364.48")]) :=
  have h := Get24hVolume_splits_keys RangeOrder.insertion (Sys.answering volumeExample) {}
    volumeExample { PrimaryCurrenciesTotals := [("totalBTC", "7364.48")],
                    Markets := [("BTC_LTC", [("BTC", "2.23"), ("LTC", "87.10")])] } rfl rfl
  ⟨rfl, h.2.2.1 "BTC_LTC" [("BTC", .str "2.23"), ("LTC", .str "87.10")] _ rfl rfl,
    h.2.2.2 "totalBTC" "7364.48" rfl, h.2.1 "totalBTC"⟩

theorem volumeLoop_fail (l : List (String × Ptr JSON)) (acc : Volume24h)
    (hsome : ∀ e ∈ l, ∃ raw, e.2 = some raw)
    (hbad : ∃ e ∈ l, ∃ raw, e.2 = some raw ∧ decMap (decString "") [] raw = none ∧
      decString "" raw = none) :
    volumeLoop l acc = .fail .unmarshal := by
  induction l generalizing acc with
  | nil =>
    obtain ⟨e, he, _⟩ := hbad
    cases he
  | cons e rest ih =>
    obtain ⟨k0, p0⟩ := e
    obtain ⟨raw, hraw⟩ := hsome (k0, p0) (List.mem_cons_self _ _)
    simp only at hraw
    subst hraw
    simp only [volumeLoop]
    have hsome2 : ∀ e ∈ rest, ∃ raw, e.2 = some raw :=
      fun e he => hsome e (List.mem_cons_of_mem _ he)
    cases hm : decMap (decString "") [] raw with
    | some mv =>
      simp only
      apply ih _ hsome2
      obtain ⟨e, he, raw2, h1, h2, h3⟩ := hbad
      rcases List.mem_cons.mp he with heq | hmem
      · subst heq
        simp only [Option.some.injEq] at h1
        subst h1
        rw [hm] at h2
        cases h2
      · exact ⟨e, hmem, raw2, h1, h2, h3⟩
    | none =>
      simp only
      cases hs : decString "" raw with
      | none => rfl
      | some s =>
        simp only
        apply ih _ hsome2
        obtain ⟨e, he, raw2, h1, h2, h3⟩ := hbad
        rcases List.mem_cons.mp he with heq | hmem
        · subst heq
          simp only [Option.some.injEq] at h1
          subst h1
          rw [hs] at h3
          cases h3
        · exact ⟨e, hmem, raw2, h1, h2, h3⟩

theorem decMapMembers_total {V : Type} (dec : JSON → Option V) (hdec : ∀ v, ∃ x, dec v = some x)
    (kvs : List (String × JSON)) (m : GoMap V) : ∃ r, decMapMembers dec m kvs = some r := by
  induction kvs generalizing m with
  | nil => exact ⟨m, rfl⟩
  | cons e kvs ih =>
    obtain ⟨k, v⟩ := e
    obtain ⟨x, hx⟩ := hdec v
    simp only [decMapMembers, hx]
    exact ih _

theorem decMapMembers_strings_none (members : List (String × JSON)) (acc : GoMap String)
    (h : allStringOrNull members = false) : decMapMembers (decString "") acc members = none := by
  induction members generalizing acc with
  | nil => simp [allStringOrNull] at h
  | cons e members ih =>
    obtain ⟨k, v⟩ := e
    simp only [allStringOrNull, Bool.and_eq_false_iff] at h
    cases v with
    | null =>
      rcases h with h | h
      · simp [stringOrNull] at h
      · simp [decMapMembers, decString, ih _ h]
    | str s =>
      rcases h with h | h
      · simp [stringOrNull] at h
      · simp [decMapMembers, decString, ih _ h]
    | _ => simp [decMapMembers, decString]

theorem volumeEntry_rejected (v : JSON) (hnull : v ≠ .null) (h : volumeEntryAccepted v = false) :
    decMap (decString "") [] v = none ∧ decString "" v = none := by
  cases v with
  | null => exact absurd rfl hnull
  | str s => simp [volumeEntryAccepted] at h
  | obj members =>
    simp only [volumeEntryAccepted] at h
    exact ⟨decMapMembers_strings_none members [] h, rfl⟩
  | _ => exact ⟨rfl, rfl⟩

theorem decRawMessage_of_ne_null (v : JSON) (h : v ≠ .null) : decRawMessage v = some (some v) := by
  cases v with
  | null => exact absurd rfl h
  | _ => rfl

/-- C6, counterexample: the entry `"BTC_LTC": {"BTC": null}` is an object with a value that is
not a string, yet `Get24hVolume` succeeds and places the key in `Markets`, with the empty string
as the volume. -/
theorem Get24hVolume_accepts_null_volume :
    objectOfStrings [("BTC", .null)] [] = none ∧
    (Get24hVolume RangeOrder.insertion (Sys.answering volumeWithNullVolume) {}).1 =
      .ok { Markets := [("BTC_LTC", [("BTC", "")])] } :=
  ⟨rfl, rfl⟩

/-- C6, amended: for a payload none of whose top-level values is null, if the value of some
top-level entry is neither a bare string nor an object whose values are strings or null (so a
number, a boolean, an array, or an object with a number, boolean, array or object inside),
`Get24hVolume` fails as a whole: it returns the decode error and no `Volume24h`, without a
panic, after the single request it sent, in every iteration order. -/
theorem Get24hVolume_fails_on_unaccepted_entry (ro : RangeOrder) (sys : Sys) (w : World)
    (j : JSON)
    (hbody : sys.roundTrip w.sent.length (publicRequest "return24hVolume" []) = .body (some j))
    (hnonnull : ∀ k, j.member k ≠ some .null)
    (hbad : ∃ k v, j.member k = some v ∧ volumeEntryAccepted v = false) :
    Get24hVolume ro sys w =
      (.fail .unmarshal, { w with sent := w.sent ++ [publicRequest "return24hVolume" []] }) := by
  have hfst := Get24hVolume_decoded ro sys w j hbody
  have hsnd : (Get24hVolume ro sys w).2 =
      { w with sent := w.sent ++ [publicRequest "return24hVolume" []] } := by
    simp only [Get24hVolume, publicCall, processRequest, hbody]
    cases decMap decRawMessage [] j <;> rfl
  obtain ⟨kb, vb, hmb, hvb⟩ := hbad
  have hdec : ∃ dest, decMap decRawMessage [] j = some dest := by
    cases j with
    | obj kvs => exact decMapMembers_total decRawMessage decRawMessage_eq_some kvs []
    | _ => simp [JSON.member] at hmb
  obtain ⟨dest, hdest⟩ := hdec
  have hnd := decMap_nodup decRawMessage j dest hdest
  have hentry : ∀ k p, (k, p) ∈ dest → ∃ v, j.member k = some v ∧ p = some v := by
    intro k p hmem
    have hg := (GoMap.mem_iff_get dest hnd k p).mp hmem
    rw [decMap_get decRawMessage j dest hdest k] at hg
    cases hm : j.member k with
    | none => simp [hm] at hg
    | some v =>
      simp only [hm] at hg
      have hv : v ≠ .null := fun hc => hnonnull k (hc ▸ hm)
      rw [decRawMessage_of_ne_null v hv] at hg
      exact ⟨v, rfl, (Option.some.inj hg).symm⟩
  have hloop : volumeLoop (ro.visit dest) {} = .fail .unmarshal := by
    apply volumeLoop_fail
    · intro e he
      obtain ⟨v, _, hp⟩ := hentry e.1 e.2 ((List.Perm.mem_iff (ro.perm dest)).mp he)
      exact ⟨v, hp⟩
    · have hvb2 : vb ≠ .null := fun hc => hnonnull kb (hc ▸ hmb)
      have hg : GoMap.get dest kb = some (some vb) := by
        rw [decMap_get decRawMessage j dest hdest kb, hmb]
        exact decRawMessage_of_ne_null vb hvb2
      have hmem : (kb, some vb) ∈ ro.visit dest :=
        (List.Perm.mem_iff (ro.perm dest)).mpr ((GoMap.mem_iff_get dest hnd kb (some vb)).mpr hg)
      obtain ⟨h1, h2⟩ := volumeEntry_rejected vb hvb2 hvb
      exact ⟨(kb, some vb), hmem, vb, rfl, h1, h2⟩
  rw [hdest] at hfst
  simp only [hloop] at hfst
  exact Prod.ext hfst hsnd

/-- Witness of the amended C6 on `volumeWithNumber`, whose total is the number `7364.48`, with
the entries visited in reverse order. -/
theorem Get24hVolume_fails_on_unaccepted_entry_witness :
    (∀ k, volumeWithNumber.member k ≠ some .null) ∧
    (∃ k v, volumeWithNumber.member k = some v ∧ volumeEntryAccepted v = false) ∧
    Get24hVolume RangeOrder.reversed (Sys.answering volumeWithNumber) {} =
      (.fail .unmarshal, { sent := [publicRequest "return24hVolume" []] }) :=
  have hnonnull : ∀ k, volumeWithNumber.member k ≠ some .null := by
    intro k
    simp only [volumeWithNumber, JSON.member, lastMember]
    split_ifs <;> simp
  have hbad : ∃ k v, volumeWithNumber.member k = some v ∧ volumeEntryAccepted v = false :=
    ⟨"totalBTC", .num "7364.48", rfl, rfl⟩
  ⟨hnonnull, hbad,
    Get24hVolume_fails_on_unaccepted_entry RangeOrder.reversed (Sys.answering volumeWithNumber) {}
      volumeWithNumber rfl hnonnull hbad⟩

/-- On a payload with a null top-level value `Get24hVolume` dereferences the nil
`*json.RawMessage` and panics. -/
theorem Get24hVolume_null_entry_panics :
    (Get24hVolume RangeOrder.insertion (Sys.answering (.obj [("totalBTC", .null)])) {}).1
      = .crash :=
  rfl

/-! ### Null records -/

/-- C7: a null record inside the list or map makes `GetLoanOrders`, `GetCompleteBalances`,
`GetAllOrderBooks`, `GetTickers`, `GetCurrencies` and `GetTradeHistory` panic on the nil pointer,
whatever the float parser, where `GetBalances` drops the record; and a record with a field of
the wrong JSON type makes `GetTradeHistory` return the decode error. -/
theorem null_record_panics_in_six_operations (env : Env) :
    (GetLoanOrders env (Sys.answering (.obj [("offers", .arr [.null])])) "BTC" {}).1 = .crash ∧
    (GetCompleteBalances env RangeOrder.insertion (Sys.answering (.obj [("BTC", .null)]))
      (New "key" "secret") "all" {}).1 = .crash ∧
    (GetAllOrderBooks env RangeOrder.insertion (Sys.answering (.obj [("BTC_LTC", .null)])) 10
      {}).1 = .crash ∧
    (GetTickers RangeOrder.insertion (Sys.answering (.obj [("BTC_LTC", .null)])) {}).1 = .crash ∧
    (GetCurrencies RangeOrder.insertion (Sys.answering (.obj [("BTC", .null)])) {}).1 = .crash ∧
    (GetTradeHistory env (Sys.answering (.arr [.null, .obj [("rate", .str "0.015")]])) "BTC_NXT"
      0 0 {}).1 = .crash ∧
    (GetBalances Env.decimal RangeOrder.insertion (Sys.answering (.obj [("BTC", .null)]))
      (New "key" "secret") {}).1 = .ok [] ∧
    (GetTradeHistory env (Sys.answering (.arr [.obj [("rate", .num "0.015")]])) "BTC_NXT"
      0 0 {}).1 = .fail (.new "find the poloniex error in the returned map") :=
  ⟨rfl, rfl, rfl, rfl, rfl, rfl, rfl, rfl⟩

/-! ### Map keys as identifiers -/

theorem decMapMembers_keys {V : Type} (dec : JSON → Option V) (kvs : List (String × JSON))
    (m r : GoMap V) (h : decMapMembers dec m kvs = some r) (k : String) :
    k ∈ GoMap.keys r ↔ k ∈ GoMap.keys m ∨ k ∈ kvs.map Prod.fst := by
  induction kvs generalizing m with
  | nil =>
    simp only [decMapMembers, Option.some.injEq] at h
    simp [h]
  | cons e kvs ih =>
    obtain ⟨k1, v1⟩ := e
    simp only [decMapMembers] at h
    cases hd : dec v1 with
    | none => simp [hd] at h
    | some x =>
      simp only [hd] at h
      rw [ih _ h, GoMap.keys_set]
      by_cases hk : k1 ∈ GoMap.keys m
      · simp only [hk, if_true, List.map_cons, List.mem_cons]
        constructor
        · rintro (h1 | h1)
          · exact Or.inl h1
          · exact Or.inr (Or.inr h1)
        · rintro (h1 | h1 | h1)
          · exact Or.inl h1
          · exact Or.inl (h1 ▸ hk)
          · exact Or.inr h1
      · simp only [hk, if_false, List.mem_append, List.mem_singleton, List.map_cons, List.mem_cons]
        tauto

theorem decMap_keys {V : Type} (dec : JSON → Option V) (j : JSON) (m : GoMap V)
    (h : decMap dec [] j = some m) (k : String) : k ∈ GoMap.keys m ↔ k ∈ j.keys := by
  cases j with
  | obj kvs =>
    have := decMapMembers_keys dec kvs [] m h k
    simpa [GoMap.keys, JSON.keys] using this
  | null =>
    simp only [decMap, Option.some.injEq] at h
    subst h
    simp [GoMap.keys, JSON.keys]
  | _ => simp [decMap] at h

theorem tickersLoop_ok (l : List (String × Ptr Ticker)) (acc r : List Ticker)
    (h : tickersLoop l acc = .ok r) :
    r.map Ticker.Currency = acc.map Ticker.Currency ++ GoMap.keys l := by
  induction l generalizing acc with
  | nil =>
    simp only [tickersLoop, Outcome.ok.injEq] at h
    simp [h, GoMap.keys]
  | cons e rest ih =>
    obtain ⟨k, p⟩ := e
    cases p with
    | none => simp [tickersLoop] at h
    | some v =>
      simp only [tickersLoop] at h
      rw [ih _ h]
      simp [GoMap.keys]

theorem currenciesLoop_ok (l : List (String × Ptr Currency)) (acc r : List Currency)
    (h : currenciesLoop l acc = .ok r) :
    r.map Currency.Name = acc.map Currency.Name ++ GoMap.keys l := by
  induction l generalizing acc with
  | nil =>
    simp only [currenciesLoop, Outcome.ok.injEq] at h
    simp [h, GoMap.keys]
  | cons e rest ih =>
    obtain ⟨k, p⟩ := e
    cases p with
    | none => simp [currenciesLoop] at h
    | some v =>
      simp only [currenciesLoop] at h
      rw [ih _ h]
      simp [GoMap.keys]

theorem balancesLoop_eq (env : Env) (l : List (String × String)) (acc : List (Balance env.F64)) :
    balancesLoop env l acc = acc ++ l.filterMap fun e =>
      (env.parseFloat e.2).map fun amount => { Currency := e.1, Amount := amount } := by
  induction l generalizing acc with
  | nil => simp [balancesLoop]
  | cons e rest ih =>
    obtain ⟨k, v⟩ := e
    cases hp : env.parseFloat v <;> simp [balancesLoop, hp, ih]

theorem visit_keys_nodup {V : Type} (ro : RangeOrder) (m : GoMap V) (h : (GoMap.keys m).Nodup) :
    (GoMap.keys (ro.visit m)).Nodup :=
  (List.Perm.nodup_iff (List.Perm.map Prod.fst (ro.perm m))).mpr h

theorem visit_mem_keys {V : Type} (ro : RangeOrder) (m : GoMap V) (k : String) :
    k ∈ GoMap.keys (ro.visit m) ↔ k ∈ GoMap.keys m :=
  List.Perm.mem_iff (List.Perm.map Prod.fst (ro.perm m))

theorem balances_currencies (env : Env) (l : List (String × String)) :
    (l.filterMap fun e =>
      (env.parseFloat e.2).map fun amount =>
        ({ Currency := e.1, Amount := amount } : Balance env.F64)).map Balance.Currency =
      (l.filter fun e => (env.parseFloat e.2).isSome).map Prod.fst := by
  induction l with
  | nil => rfl
  | cons e rest ih =>
    obtain ⟨k, v⟩ := e
    cases hp : env.parseFloat v <;> simp [List.filterMap_cons, List.filter_cons, hp, ih]

theorem tickersLoop_source (l : List (String × Ptr Ticker)) (acc r : List Ticker)
    (h : tickersLoop l acc = .ok r) :
    ∀ t ∈ r, t ∈ acc ∨ ∃ k v, (k, some v) ∈ l ∧ t = { v with Currency := k } := by
  induction l generalizing acc with
  | nil =>
    simp only [tickersLoop, Outcome.ok.injEq] at h
    subst h
    exact fun t ht => Or.inl ht
  | cons e rest ih =>
    obtain ⟨k, p⟩ := e
    cases p with
    | none => simp [tickersLoop] at h
    | some v =>
      simp only [tickersLoop] at h
      intro t ht
      rcases ih _ h t ht with h1 | ⟨k2, v2, hmem, heq⟩
      · rcases List.mem_append.mp h1 with h2 | h2
        · exact Or.inl h2
        · exact Or.inr ⟨k, v, List.mem_cons_self _ _, List.mem_singleton.mp h2⟩
      · exact Or.inr ⟨k2, v2, List.mem_cons_of_mem _ hmem, heq⟩

theorem currenciesLoop_source (l : List (String × Ptr Currency)) (acc r : List Currency)
    (h : currenciesLoop l acc = .ok r) :
    ∀ t ∈ r, t ∈ acc ∨ ∃ k v, (k, some v) ∈ l ∧ t = { v with Name := k } := by
  induction l generalizing acc with
  | nil =>
    simp only [currenciesLoop, Outcome.ok.injEq] at h
    subst h
    exact fun t ht => Or.inl ht
  | cons e rest ih =>
    obtain ⟨k, p⟩ := e
    cases p with
    | none => simp [currenciesLoop] at h
    | some v =>
      simp only [currenciesLoop] at h
      intro t ht
      rcases ih _ h t ht with h1 | ⟨k2, v2, hmem, heq⟩
      · rcases List.mem_append.mp h1 with h2 | h2
        · exact Or.inl h2
        · exact Or.inr ⟨k, v, List.mem_cons_self _ _, List.mem_singleton.mp h2⟩
      · exact Or.inr ⟨k2, v2, List.mem_cons_of_mem _ hmem, heq⟩

theorem decoded_entry_source {V : Type} (dec : JSON → Option V) (ro : RangeOrder) (j : JSON)
    (m : GoMap V) (hdec : decMap dec [] j = some m) (k : String) (x : V)
    (hmem : (k, x) ∈ ro.visit m) : ∃ jv, j.member k = some jv ∧ dec jv = some x := by
  have hmem2 : (k, x) ∈ m := (List.Perm.mem_iff (ro.perm m)).mp hmem
  have hg := (GoMap.mem_iff_get m (decMap_nodup dec j m hdec) k x).mp hmem2
  rw [decMap_get dec j m hdec k] at hg
  cases hm : j.member k with
  | none => simp [hm] at hg
  | some jv =>
    simp only [hm] at hg
    exact ⟨jv, rfl, hg⟩

/-- C8: in every iteration order, when the call returns a result, (1) the identifiers of the
produced records are the top-level keys of the payload, each exactly once, and (2) every record
is built from the entry received under the key it carries, whatever identifier that entry holds
itself: a ticker is the decoding of the payload member at `Ticker.Currency` with `Currency`
replaced by that key, a currency the decoding of the member at `Currency.Name` with `Name`
replaced by that key, and a balance has the parsed amount text of the member at
`Balance.Currency` (for `GetBalances` the keys are those whose amount text parses). -/
theorem map_key_is_the_identifier :
    (∀ (ro : RangeOrder) (sys : Sys) (w : World) (j : JSON) (tickers : List Ticker),
      (∀ r, sys.roundTrip w.sent.length r = .body (some j)) →
      (GetTickers ro sys w).1 = .ok tickers →
      (tickers.map Ticker.Currency).Nodup ∧
        (∀ k, k ∈ tickers.map Ticker.Currency ↔ k ∈ j.keys) ∧
        ∀ t ∈ tickers, ∃ jv v, j.member t.Currency = some jv ∧
          decPtr ({} : Ticker) Ticker.setField jv = some (some v) ∧
          t = { v with Currency := t.Currency }) ∧
    (∀ (ro : RangeOrder) (sys : Sys) (w : World) (j : JSON) (currencies : List Currency),
      (∀ r, sys.roundTrip w.sent.length r = .body (some j)) →
      (GetCurrencies ro sys w).1 = .ok currencies →
      (currencies.map Currency.Name).Nodup ∧
        (∀ k, k ∈ currencies.map Currency.Name ↔ k ∈ j.keys) ∧
        ∀ t ∈ currencies, ∃ jv v, j.member t.Name = some jv ∧
          decPtr ({} : Currency) Currency.setField jv = some (some v) ∧
          t = { v with Name := t.Name }) ∧
    (∀ (env : Env) (ro : RangeOrder) (sys : Sys) (c : client) (w : World) (j : JSON)
      (balances : List (Balance env.F64)),
      (∀ r, sys.roundTrip w.sent.length r = .body (some j)) →
      (GetBalances env ro sys c w).1 = .ok balances →
      (balances.map Balance.Currency).Nodup ∧
        (∀ k, k ∈ balances.map Balance.Currency ↔
          ∃ text, balanceText j k = some text ∧ (env.parseFloat text).isSome = true) ∧
        ∀ b ∈ balances, ∃ text, balanceText j b.Currency = some text ∧
          env.parseFloat text = some b.Amount) := by
  refine ⟨?_, ?_, ?_⟩
  · intro ro sys w j tickers hbody hok
    simp only [GetTickers, publicCall, processRequest, hbody] at hok
    cases hdec : decMap (decPtr ({} : Ticker) Ticker.setField) [] j with
    | none => simp [hdec, Outcome.andThen] at hok
    | some m =>
      simp only [hdec, Outcome.andThen] at hok
      have hmap := tickersLoop_ok _ _ _ hok
      simp only [List.map_nil, List.nil_append] at hmap
      refine ⟨?_, ?_, ?_⟩
      · rw [hmap]
        exact visit_keys_nodup ro m (decMap_nodup _ j m hdec)
      · intro k
        rw [hmap, visit_mem_keys, decMap_keys _ j m hdec]
      · intro t ht
        rcases tickersLoop_source _ _ _ hok t ht with h1 | ⟨k, v, hmem, heq⟩
        · cases h1
        · obtain ⟨jv, hjv, hd⟩ := decoded_entry_source _ ro j m hdec k (some v) hmem
          have hk : t.Currency = k := by rw [heq]
          rw [hk]
          exact ⟨jv, v, hjv, hd, heq⟩
  · intro ro sys w j currencies hbody hok
    simp only [GetCurrencies, publicCall, processRequest, hbody] at hok
    cases hdec : decMap (decPtr ({} : Currency) Currency.setField) [] j with
    | none => simp [hdec, Outcome.andThen] at hok
    | some m =>
      simp only [hdec, Outcome.andThen] at hok
      have hmap := currenciesLoop_ok _ _ _ hok
      simp only [List.map_nil, List.nil_append] at hmap
      refine ⟨?_, ?_, ?_⟩
      · rw [hmap]
        exact visit_keys_nodup ro m (decMap_nodup _ j m hdec)
      · intro k
        rw [hmap, visit_mem_keys, decMap_keys _ j m hdec]
      · intro t ht
        rcases currenciesLoop_source _ _ _ hok t ht with h1 | ⟨k, v, hmem, heq⟩
        · cases h1
        · obtain ⟨jv, hjv, hd⟩ := decoded_entry_source _ ro j m hdec k (some v) hmem
          have hk : t.Name = k := by rw [heq]
          rw [hk]
          exact ⟨jv, v, hjv, hd, heq⟩
  · intro env ro sys c w j balances hbody hok
    simp only [GetBalances, tradeCall, HmacSha512, processRequest, hbody] at hok
    cases hdec : decMap (decString "") [] j with
    | none => simp [hdec, Outcome.andThen] at hok
    | some m =>
      simp only [hdec, Outcome.andThen, Outcome.ok.injEq] at hok
      subst hok
      have hnd := decMap_nodup _ j m hdec
      have hget : ∀ k, GoMap.get m k = balanceText j k := fun k => by
        rw [decMap_get _ j m hdec k, balanceText]
        cases j.member k <;> rfl
      refine ⟨?_, ?_, ?_⟩
      · rw [balancesLoop_eq, List.nil_append, balances_currencies]
        exact List.Nodup.sublist (List.Sublist.map _ (List.filter_sublist _))
          (visit_keys_nodup ro m hnd)
      · intro k
        rw [balancesLoop_eq, List.nil_append, balances_currencies]
        simp only [List.mem_map, List.mem_filter, Prod.exists, exists_and_right, exists_eq_right]
        constructor
        · rintro ⟨text, hmem, hp⟩
          have hmem2 := (List.Perm.mem_iff (ro.perm m)).mp hmem
          rw [GoMap.mem_iff_get m hnd, hget] at hmem2
          exact ⟨text, hmem2, hp⟩
        · rintro ⟨text, htext, hp⟩
          rw [← hget, ← GoMap.mem_iff_get m hnd] at htext
          exact ⟨text, (List.Perm.mem_iff (ro.perm m)).mpr htext, hp⟩
      · intro b hb
        rw [balancesLoop_eq, List.nil_append, List.mem_filterMap] at hb
        obtain ⟨e, hmem, he⟩ := hb
        obtain ⟨amount, hp, hba⟩ := Option.map_eq_some'.mp he
        subst hba
        have hmem2 : (e.1, e.2) ∈ m := (List.Perm.mem_iff (ro.perm m)).mp hmem
        rw [GoMap.mem_iff_get m hnd, hget] at hmem2
        exact ⟨e.2, hmem2, hp⟩

/-- Witness of C8: on payloads whose records carry an identifier of their own (`Currency`,
`name`) the calls succeed, the produced identifiers are the map keys, and each record holds the
data received under its key. -/
theorem map_key_is_the_identifier_witness :
    ((GetTickers RangeOrder.insertion (Sys.answering tickersExample) {}).1 =
        .ok [{ Currency := "BTC_LTC", ID := 50, Last := "0.5" },
             { Currency := "BTC_NXT", Last := "0.1" }] ∧
      (∀ k, k ∈ ["BTC_LTC", "BTC_NXT"] ↔ k ∈ tickersExample.keys) ∧
      ∀ t ∈ [({ Currency := "BTC_LTC", ID := 50, Last := "0.5" } : Ticker),
             { Currency := "BTC_NXT", Last := "0.1" }],
        ∃ jv v, tickersExample.member t.Currency = some jv ∧
          decPtr ({} : Ticker) Ticker.setField jv = some (some v) ∧
          t = { v with Currency := t.Currency }) ∧
    ((GetCurrencies RangeOrder.reversed (Sys.answering currenciesExample) {}).1 =
        .ok [{ ID := 28, Name := "BTC", TxFee := "0.0005" }] ∧
      (∀ k, k ∈ ["BTC"] ↔ k ∈ currenciesExample.keys) ∧
      ∀ t ∈ [({ ID := 28, Name := "BTC", TxFee := "0.0005" } : Currency)],
        ∃ jv v, currenciesExample.member t.Name = some jv ∧
          decPtr ({} : Currency) Currency.setField jv = some (some v) ∧
          t = { v with Name := t.Name }) ∧
    ((GetBalances Env.decimal RangeOrder.insertion (Sys.answering balancesExample)
        (New "key" "secret") {}).1 = .ok [{ Currency := "BTC", Amount := ⟨false, ['1'], ['5']⟩ }] ∧
      (∀ k, k ∈ ["BTC"] ↔
        ∃ text, balanceText balancesExample k = some text ∧
          (Env.decimal.parseFloat text).isSome = true) ∧
      ∀ b ∈ [({ Currency := "BTC", Amount := ⟨false, ['1'], ['5']⟩ } : Balance Env.decimal.F64)],
        ∃ text, balanceText balancesExample b.Currency = some text ∧
          Env.decimal.parseFloat text = some b.Amount) :=
  ⟨⟨rfl, (map_key_is_the_identifier.1 RangeOrder.insertion (Sys.answering tickersExample) {}
      tickersExample _ (fun _ => rfl) rfl).2⟩,
    ⟨rfl, (map_key_is_the_identifier.2.1 RangeOrder.reversed (Sys.answering currenciesExample) {}
      currenciesExample _ (fun _ => rfl) rfl).2⟩,
    ⟨rfl, (map_key_is_the_identifier.2.2 Env.decimal RangeOrder.insertion
      (Sys.answering balancesExample) (New "key" "secret") {} balancesExample _ (fun _ => rfl)
      rfl).2⟩⟩

theorem decPtr_ne_nil {S : Type} (zero : S) (step : S → String → JSON → Option S) (v : JSON)
    (p : Ptr S) (hv : v ≠ .null) (h : decPtr zero step v = some p) : ∃ s, p = some s := by
  cases v with
  | null => exact absurd rfl hv
  | obj kvs =>
    simp only [decPtr] at h
    cases hm : decMembers step zero kvs with
    | none => simp [hm] at h
    | some s =>
      simp only [hm, Option.some.injEq] at h
      exact ⟨s, h.symm⟩
  | _ => simp [decPtr] at h

theorem decoded_entries_not_nil {S : Type} (zero : S) (step : S → String → JSON → Option S)
    (ro : RangeOrder) (j : JSON) (m : GoMap (Ptr S)) (hdec : decMap (decPtr zero step) [] j = some m)
    (hnonnull : ∀ k, j.member k ≠ some .null) :
    ∀ e ∈ ro.visit m, ∃ s, e.2 = some s := by
  intro e he
  have hmem : (e.1, e.2) ∈ m := (List.Perm.mem_iff (ro.perm m)).mp he
  have hg := (GoMap.mem_iff_get m (decMap_nodup _ j m hdec) e.1 e.2).mp hmem
  rw [decMap_get _ j m hdec e.1] at hg
  cases hm : j.member e.1 with
  | none => simp [hm] at hg
  | some v =>
    simp only [hm] at hg
    exact decPtr_ne_nil zero step v e.2 (fun hc => hnonnull e.1 (hc ▸ hm)) hg

theorem tickersLoop_total (l : List (String × Ptr Ticker)) (acc : List Ticker)
    (h : ∀ e ∈ l, ∃ s, e.2 = some s) : ∃ r, tickersLoop l acc = .ok r := by
  induction l generalizing acc with
  | nil => exact ⟨acc, rfl⟩
  | cons e rest ih =>
    obtain ⟨k, p⟩ := e
    obtain ⟨s, hs⟩ := h (k, p) (List.mem_cons_self _ _)
    simp only at hs
    subst hs
    simp only [tickersLoop]
    exact ih _ fun e he => h e (List.mem_cons_of_mem _ he)

theorem currenciesLoop_total (l : List (String × Ptr Currency)) (acc : List Currency)
    (h : ∀ e ∈ l, ∃ s, e.2 = some s) : ∃ r, currenciesLoop l acc = .ok r := by
  induction l generalizing acc with
  | nil => exact ⟨acc, rfl⟩
  | cons e rest ih =>
    obtain ⟨k, p⟩ := e
    obtain ⟨s, hs⟩ := h (k, p) (List.mem_cons_self _ _)
    simp only at hs
    subst hs
    simp only [currenciesLoop]
    exact ih _ fun e he => h e (List.mem_cons_of_mem _ he)

/-- When the payload decodes and none of its top-level values is null, `GetTickers` and
`GetCurrencies` return a result. -/
theorem GetTickers_GetCurrencies_return (ro : RangeOrder) (sys : Sys) (w : World) (j : JSON)
    (hbody : ∀ r, sys.roundTrip w.sent.length r = .body (some j))
    (hnonnull : ∀ k, j.member k ≠ some .null) :
    (∀ m, decMap (decPtr ({} : Ticker) Ticker.setField) [] j = some m →
      ∃ tickers, (GetTickers ro sys w).1 = .ok tickers) ∧
    (∀ m, decMap (decPtr ({} : Currency) Currency.setField) [] j = some m →
      ∃ currencies, (GetCurrencies ro sys w).1 = .ok currencies) := by
  constructor
  · intro m hdec
    simp only [GetTickers, publicCall, processRequest, hbody, hdec, Outcome.andThen]
    exact tickersLoop_total _ _ (decoded_entries_not_nil _ _ ro j m hdec hnonnull)
  · intro m hdec
    simp only [GetCurrencies, publicCall, processRequest, hbody, hdec, Outcome.andThen]
    exact currenciesLoop_total _ _ (decoded_entries_not_nil _ _ ro j m hdec hnonnull)

/-! ### Authenticated requests -/

theorem foldl_Set_get (ps : List postParam) (form : Values) (k : String) :
    GoMap.get (ps.foldl (fun f p => Values.Set f p.key p.value) form) k =
      match lastParam ps k with
      | some v => some [v]
      | none => GoMap.get form k := by
  induction ps generalizing form with
  | nil => simp [lastParam]
  | cons p ps ih =>
    simp only [List.foldl_cons]
    rw [ih]
    cases hl : lastParam ps k with
    | some v => simp [lastParam, hl]
    | none =>
      by_cases hk : p.key = k <;> simp [lastParam, hl, hk, Values.Set, GoMap.get_set]

theorem tradeForm_get (command : String) (now : Int) (postParams : List postParam) (k : String) :
    GoMap.get (tradeForm command now postParams) k =
      match lastParam postParams k with
      | some v => some [v]
      | none =>
        if "nonce" = k then some [toString now]
        else if "command" = k then some [command] else none := by
  rw [tradeForm, foldl_Set_get]
  cases lastParam postParams k with
  | some v => rfl
  | none =>
    simp only [Values.Set, GoMap.get_set]
    simp [GoMap.get]

theorem lastParam_eq_none (ps : List postParam) (k : String) (h : ∀ p ∈ ps, p.key ≠ k) :
    lastParam ps k = none := by
  induction ps with
  | nil => rfl
  | cons p ps ih =>
    have h1 := h p (List.mem_cons_self _ _)
    have h2 := ih fun q hq => h q (List.mem_cons_of_mem _ hq)
    simp [lastParam, h1, h2]

theorem lastParam_isSome_or (ps : List postParam) (k : String) :
    lastParam ps k = none ∨ ∃ v, lastParam ps k = some v := by
  cases lastParam ps k with
  | none => exact Or.inl rfl
  | some v => exact Or.inr ⟨v, rfl⟩

theorem tradeCall_sent {δ : Type} (env : Env) (sys : Sys) (c : client) (dec : JSON → Option δ)
    (command : String) (postParams : List postParam) (w : World) :
    (tradeCall env sys c dec command postParams w).2 =
      { sent := w.sent ++ [tradeRequest c
          (Values.Encode (tradeForm command (sys.clock w.reads) postParams))
          (hexEncodeToString (env.hmacSum c.secret
            (Values.Encode (tradeForm command (sys.clock w.reads) postParams))))],
        reads := w.reads + 1 } := by
  simp only [tradeCall, HmacSha512, processRequest]
  split <;> try rfl
  split <;> rfl

/-- C10, counterexample: with a post parameter named `command`, the body of the request
`tradeCall` sends for the command `returnBalances` carries `command=withdraw`, not
`command=returnBalances`. -/
theorem tradeCall_command_can_be_replaced :
    (tradeCall Env.decimal (Sys.answering .null) (New "key" "secret") (decMap (decString "") [])
      "returnBalances" [{ key := "command", value := "withdraw" }] {}).2.sent.map Request.body =
      ["command=withdraw&nonce=1500000000000000000"] := by
  rfl

/-- C10, amended: for every command, credentials and post parameters, `tradeCall` sends exactly
one request, a POST to the trading endpoint whose body is the encoding of the form holding
`command`, `nonce` and the post parameters with last-write-wins (a nonce always, and
`command=<command>` when no post parameter is named `command`); its `Sign` header is
`HmacSha512(secret, body)` over the body that is sent, its `Key` header the API key, its
`Content-Type` `application/x-www-form-urlencoded` and its `Accept` `application/json`. -/
theorem tradeCall_builds_signed_request {δ : Type} (env : Env) (sys : Sys) (c : client)
    (dec : JSON → Option δ) (command : String) (postParams : List postParam) (w : World) :
    ∃ req form,
      (tradeCall env sys c dec command postParams w).2.sent = w.sent ++ [req] ∧
      req.method = "POST" ∧ req.url = TradeAPI ∧ req.rawQuery = "" ∧
      req.body = Values.Encode form ∧
      form = tradeForm command (sys.clock w.reads) postParams ∧
      (∀ k, GoMap.get form k =
        match lastParam postParams k with
        | some v => some [v]
        | none =>
          if "nonce" = k then some [toString (sys.clock w.reads)]
          else if "command" = k then some [command] else none) ∧
      ((∀ p ∈ postParams, p.key ≠ "command") → GoMap.get form "command" = some [command]) ∧
      (∃ nonce, GoMap.get form "nonce" = some [nonce]) ∧
      (∃ sign, HmacSha512 env c.secret req.body = .ok sign ∧
        GoMap.get req.header "Sign" = some [sign]) ∧
      GoMap.get req.header "Key" = some [c.key] ∧
      GoMap.get req.header "Content-Type" = some ["application/x-www-form-urlencoded"] ∧
      GoMap.get req.header "Accept" = some ["application/json"] ∧
      GoMap.keys req.header = ["Accept", "Content-Type", "Key", "Sign"] := by
  refine ⟨tradeRequest c (Values.Encode (tradeForm command (sys.clock w.reads) postParams))
    (hexEncodeToString (env.hmacSum c.secret
      (Values.Encode (tradeForm command (sys.clock w.reads) postParams)))),
    tradeForm command (sys.clock w.reads) postParams, ?_, ?_⟩
  · rw [tradeCall_sent]
  · refine ⟨rfl, rfl, rfl, rfl, rfl, tradeForm_get command _ postParams, ?_, ?_,
      ⟨_, rfl, rfl⟩, rfl, rfl, rfl, rfl⟩
    · intro h
      rw [tradeForm_get, lastParam_eq_none postParams "command" h]
      simp
    · rw [tradeForm_get]
      rcases lastParam_isSome_or postParams "nonce" with h | ⟨v, h⟩
      · exact ⟨toString (sys.clock w.reads), by simp [h]⟩
      · exact ⟨v, by simp [h]⟩

/-- Witness of the amended C10 on `returnCompleteBalances` with the post parameter
`account=all`, which is not named `command`. -/
theorem tradeCall_builds_signed_request_witness :
    (∀ p ∈ [({ key := "account", value := "all" } : postParam)], p.key ≠ "command") ∧
    ∃ req form,
      (tradeCall Env.decimal (Sys.answering (.obj [])) (New "key" "secret")
        (decMap (decPtr ({} : balanceFromJSON) balanceFromJSON.setField) [])
        "returnCompleteBalances" [{ key := "account", value := "all" }] {}).2.sent = [req] ∧
      req.body = Values.Encode form ∧
      req.body = "account=all&command=returnCompleteBalances&nonce=1500000000000000000" ∧
      GoMap.get form "command" = some ["returnCompleteBalances"] ∧
      GoMap.get req.header "Sign" =
        some [hexEncodeToString (Env.decimal.hmacSum "secret" req.body)] :=
  have hp : ∀ p ∈ [({ key := "account", value := "all" } : postParam)], p.key ≠ "command" := by
    intro p hp
    rw [List.mem_singleton.mp hp]
    decide
  ⟨hp, by
    obtain ⟨req, form, h1, _, _, _, h5, h6, _, h8, _, ⟨sign, h10, h11⟩, _⟩ :=
      tradeCall_builds_signed_request Env.decimal (Sys.answering (.obj [])) (New "key" "secret")
        (decMap (decPtr ({} : balanceFromJSON) balanceFromJSON.setField) [])
        "returnCompleteBalances" [{ key := "account", value := "all" }] {}
    refine ⟨req, form, h1, h5, ?_, h8 hp, ?_⟩
    · rw [h5, h6]
      rfl
    · rw [h11]
      simp only [HmacSha512, Outcome.ok.injEq] at h10
      rw [← h10]
      rfl⟩

/-! ### The nonce -/

theorem digitsValue_append (xs ys : List Char) (acc : Nat) :
    digitsValue (xs ++ ys) acc = (digitsValue xs acc).bind (digitsValue ys) := by
  induction xs generalizing acc with
  | nil => simp [digitsValue]
  | cons c cs ih =>
    simp only [List.cons_append, digitsValue]
    split
    · exact ih _
    · rfl

theorem toDigitsCore_append (fuel n : Nat) (ds : List Char) :
    Nat.toDigitsCore 10 fuel n ds = Nat.toDigitsCore 10 fuel n [] ++ ds := by
  induction fuel generalizing n ds with
  | zero => simp [Nat.toDigitsCore]
  | succ fuel ih =>
    simp only [Nat.toDigitsCore]
    split
    · simp
    · rw [ih (n / 10) (Nat.digitChar (n % 10) :: ds), ih (n / 10) [Nat.digitChar (n % 10)]]
      simp

theorem digitsValue_digitChar (m acc : Nat) (hm : m < 10) :
    digitsValue [Nat.digitChar m] acc = some (acc * 10 + m) := by
  interval_cases m <;> rfl

theorem digitsValue_toDigitsCore (fuel n : Nat) (h : n < fuel) :
    digitsValue (Nat.toDigitsCore 10 fuel n []) 0 = some n := by
  induction fuel generalizing n with
  | zero => omega
  | succ fuel ih =>
    simp only [Nat.toDigitsCore]
    by_cases h0 : n / 10 = 0
    · simp only [h0, if_true]
      rw [digitsValue_digitChar _ _ (Nat.mod_lt _ (by decide))]
      congr 1
      omega
    · simp only [h0, if_false]
      rw [toDigitsCore_append, digitsValue_append, ih (n / 10) (by omega)]
      simp only [Option.bind]
      rw [digitsValue_digitChar _ _ (Nat.mod_lt _ (by decide))]
      congr 1
      omega

theorem toDigits_ne_nil (n : Nat) : Nat.toDigits 10 n ≠ [] := by
  simp only [Nat.toDigits, Nat.toDigitsCore]
  split
  · simp
  · rw [toDigitsCore_append]
    simp

theorem digitsValue_toDigits (n : Nat) : digitsValue (Nat.toDigits 10 n) 0 = some n :=
  digitsValue_toDigitsCore (n + 1) n (Nat.lt_succ_self n)

theorem digitsValue_head (c : Char) (cs : List Char) (acc m : Nat)
    (h : digitsValue (c :: cs) acc = some m) : 48 ≤ c.toNat := by
  simp only [digitsValue] at h
  split at h
  · rename_i hc
    exact hc.1
  · cases h

theorem ParseInt_digits (l : List Char) (m : Nat) (hne : l ≠ []) (hv : digitsValue l 0 = some m)
    (hm : m < 2 ^ 63) : ParseInt (String.mk l) = some (m : Int) := by
  cases l with
  | nil => exact absurd rfl hne
  | cons c cs =>
    have hc := digitsValue_head c cs 0 m hv
    have h1 : c ≠ '-' := fun hc2 => by
      subst hc2
      exact absurd hc (by decide)
    have h2 : c ≠ '+' := fun hc2 => by
      subst hc2
      exact absurd hc (by decide)
    simp only [ParseInt, String.toList, h1, h2, if_false, hv, hm, if_true]

theorem ParseInt_minus_digits (l : List Char) (m : Nat) (hne : l ≠ [])
    (hv : digitsValue l 0 = some m) (hm : m ≤ 2 ^ 63) :
    ParseInt (String.mk ('-' :: l)) = some (-(m : Int)) := by
  cases l with
  | nil => exact absurd rfl hne
  | cons c cs => simp only [ParseInt, String.toList, if_true, hv, hm]

theorem ParseInt_toString (i : Int) (h1 : -(2 ^ 63) ≤ i) (h2 : i < 2 ^ 63) :
    ParseInt (toString i) = some i := by
  cases i with
  | ofNat m =>
    have hm : m < 2 ^ 63 := by
      have h3 : (m : Int) < 2 ^ 63 := h2
      omega
    exact ParseInt_digits (Nat.toDigits 10 m) m (toDigits_ne_nil m) (digitsValue_toDigits m) hm
  | negSucc m =>
    have hm : m + 1 ≤ 2 ^ 63 := by
      have : -((m : Int) + 1) = Int.negSucc m := (Int.negSucc_eq m).symm
      omega
    have := ParseInt_minus_digits (Nat.toDigits 10 (m + 1)) (m + 1) (toDigits_ne_nil (m + 1))
      (digitsValue_toDigits (m + 1)) hm
    rw [Int.negSucc_eq]
    exact_mod_cast this

theorem nonceOf_tradeForm (command : String) (now : Int) (postParams : List postParam)
    (hp : ∀ p ∈ postParams, p.key ≠ "nonce") (h1 : -(2 ^ 63) ≤ now) (h2 : now < 2 ^ 63) :
    nonceOf (tradeForm command now postParams) = some now := by
  have hget : GoMap.get (tradeForm command now postParams) "nonce" = some [toString now] := by
    rw [tradeForm_get, lastParam_eq_none postParams "nonce" hp]
    simp
  simp only [nonceOf, hget]
  exact ParseInt_toString now h1 h2

/-- C9, counterexample: when the clock returns the same reading twice, two `GetBalances` calls
issued one after the other send the same nonce. -/
theorem stalled_clock_repeats_the_nonce :
    (GetBalances Env.decimal RangeOrder.insertion (Sys.stalled (.obj [])) (New "key" "secret")
      (GetBalances Env.decimal RangeOrder.insertion (Sys.stalled (.obj [])) (New "key" "secret")
        {}).2).2.sent.map Request.body =
      ["command=returnBalances&nonce=1500000000000000000",
       "command=returnBalances&nonce=1500000000000000000"] := by
  rfl

/-- C9, amended: each authenticated call reads the clock once and sends that reading as its
nonce.  Of two calls issued one after the other with the same credentials (no post parameter
named `nonce`, readings within `int64`), the first carries the first reading and the second the
next one, so the later nonce is strictly greater exactly when the later reading is strictly
greater. -/
theorem successive_tradeCalls_carry_clock_readings {δ₁ δ₂ : Type} (env : Env) (sys : Sys)
    (c : client) (dec1 : JSON → Option δ₁) (dec2 : JSON → Option δ₂) (command1 command2 : String)
    (params1 params2 : List postParam) (w : World)
    (hp1 : ∀ p ∈ params1, p.key ≠ "nonce") (hp2 : ∀ p ∈ params2, p.key ≠ "nonce")
    (hr1 : -(2 ^ 63) ≤ sys.clock w.reads ∧ sys.clock w.reads < 2 ^ 63)
    (hr2 : -(2 ^ 63) ≤ sys.clock (w.reads + 1) ∧ sys.clock (w.reads + 1) < 2 ^ 63) :
    ∃ form1 form2 sign1 sign2,
      (tradeCall env sys c dec2 command2 params2
        (tradeCall env sys c dec1 command1 params1 w).2).2.sent =
          w.sent ++ [tradeRequest c (Values.Encode form1) sign1,
                     tradeRequest c (Values.Encode form2) sign2] ∧
      nonceOf form1 = some (sys.clock w.reads) ∧
      nonceOf form2 = some (sys.clock (w.reads + 1)) ∧
      ∀ n1 n2, nonceOf form1 = some n1 → nonceOf form2 = some n2 →
        (n1 < n2 ↔ sys.clock w.reads < sys.clock (w.reads + 1)) := by
  have hn1 := nonceOf_tradeForm command1 (sys.clock w.reads) params1 hp1 hr1.1 hr1.2
  have hn2 := nonceOf_tradeForm command2 (sys.clock (w.reads + 1)) params2 hp2 hr2.1 hr2.2
  refine ⟨tradeForm command1 (sys.clock w.reads) params1,
    tradeForm command2 (sys.clock (w.reads + 1)) params2,
    hexEncodeToString (env.hmacSum c.secret
      (Values.Encode (tradeForm command1 (sys.clock w.reads) params1))),
    hexEncodeToString (env.hmacSum c.secret
      (Values.Encode (tradeForm command2 (sys.clock (w.reads + 1)) params2))), ?_, hn1, hn2, ?_⟩
  · rw [tradeCall_sent, tradeCall_sent]
    simp only [List.append_assoc, List.singleton_append]
  · intro n1 n2 h1 h2
    rw [hn1] at h1
    rw [hn2] at h2
    cases h1
    cases h2
    exact Iff.rfl

/-- Witness of the amended C9: two `GetBalances`-style calls under a clock that advances by one
nanosecond per reading carry the nonces `1500000000000000000` and `1500000000000000001`. -/
theorem successive_tradeCalls_carry_clock_readings_witness :
    (∀ p ∈ ([] : List postParam), p.key ≠ "nonce") ∧
    (-(2 ^ 63) ≤ (Sys.answering (.obj [])).clock 0 ∧ (Sys.answering (.obj [])).clock 0 < 2 ^ 63) ∧
    (-(2 ^ 63) ≤ (Sys.answering (.obj [])).clock 1 ∧ (Sys.answering (.obj [])).clock 1 < 2 ^ 63) ∧
    ∃ form1 form2 sign1 sign2,
      (tradeCall Env.decimal (Sys.answering (.obj [])) (New "key" "secret")
        (decMap (decString "") []) "returnBalances" []
        (tradeCall Env.decimal (Sys.answering (.obj [])) (New "key" "secret")
          (decMap (decString "") []) "returnBalances" [] {}).2).2.sent =
          [tradeRequest (New "key" "secret") (Values.Encode form1) sign1,
           tradeRequest (New "key" "secret") (Values.Encode form2) sign2] ∧
      nonceOf form1 = some 1500000000000000000 ∧
      nonceOf form2 = some 1500000000000000001 :=
  have hp : ∀ p ∈ ([] : List postParam), p.key ≠ "nonce" := fun p hp => by cases hp
  have hr1 : -(2 ^ 63) ≤ (Sys.answering (.obj [])).clock 0 ∧
      (Sys.answering (.obj [])).clock 0 < 2 ^ 63 := by
    simp only [Sys.answering]
    constructor <;> norm_num
  have hr2 : -(2 ^ 63) ≤ (Sys.answering (.obj [])).clock 1 ∧
      (Sys.answering (.obj [])).clock 1 < 2 ^ 63 := by
    simp only [Sys.answering]
    constructor <;> norm_num
  ⟨hp, hr1, hr2, by
    obtain ⟨form1, form2, sign1, sign2, h1, h2, h3, _⟩ :=
      successive_tradeCalls_carry_clock_readings Env.decimal (Sys.answering (.obj []))
        (New "key" "secret") (decMap (decString "") []) (decMap (decString "") [])
        "returnBalances" "returnBalances" [] [] {} hp hp hr1 hr2
    exact ⟨form1, form2, sign1, sign2, h1, h2, h3⟩⟩

/-! ### The query of the trade history -/

theorem processRequest_sent {δ : Type} (sys : Sys) (dec : JSON → Option δ) (r : Request)
    (w : World) : (processRequest sys dec r w).2 = { w with sent := w.sent ++ [r] } := by
  simp only [processRequest]
  split <;> try rfl
  split <;> rfl

/-- C11: for every pair, start and end, `GetTradeHistory` sends one GET request to the public
endpoint whose query is the encoding of `command=returnTradeHistory`, `currencyPair` and, exactly
when start and end are both non-zero, `start` and `end` with their decimal values; when start or
end is 0 both are omitted and the query has the two keys `command` and `currencyPair` only. -/
theorem GetTradeHistory_query_parameters (env : Env) (sys : Sys) (currencyPair : String)
    (start end_ : Nat) (w : World) :
    ∃ query : Values,
      query = publicQuery "returnTradeHistory" (tradeHistoryParams currencyPair start end_) ∧
      (GetTradeHistory env sys currencyPair start end_ w).2.sent =
        w.sent ++ [{ method := "GET", url := PublicAPI, rawQuery := Values.Encode query }] ∧
      GoMap.get query "command" = some ["returnTradeHistory"] ∧
      GoMap.get query "currencyPair" = some [currencyPair] ∧
      GoMap.get query "start" =
        (if start ≠ 0 ∧ end_ ≠ 0 then some [toString start] else none) ∧
      GoMap.get query "end" =
        (if start ≠ 0 ∧ end_ ≠ 0 then some [toString end_] else none) ∧
      GoMap.keys query =
        (if start ≠ 0 ∧ end_ ≠ 0 then ["command", "currencyPair", "start", "end"]
         else ["command", "currencyPair"]) ∧
      digitsValue (toString start).toList 0 = some start ∧
      digitsValue (toString end_).toList 0 = some end_ := by
  refine ⟨_, rfl, ?_, ?_, ?_, ?_, ?_, ?_, digitsValue_toDigits start, digitsValue_toDigits end_⟩
  · simp only [GetTradeHistory, publicCall, processRequest_sent]
    rfl
  all_goals
    by_cases h : start ≠ 0 ∧ end_ ≠ 0 <;>
      simp [publicQuery, tradeHistoryParams, h, Values.Set, GoMap.set, GoMap.get, GoMap.keys]

/-- The query strings of `GetTradeHistory` with a range and with a zero end. -/
theorem GetTradeHistory_query_examples :
    (GetTradeHistory Env.decimal (Sys.answering (.arr [])) "BTC_NXT" 1410158341 1410499372
      {}).2.sent.map Request.rawQuery =
      ["command=returnTradeHistory&currencyPair=BTC_NXT&end=1410499372&start=1410158341"] ∧
    (GetTradeHistory Env.decimal (Sys.answering (.arr [])) "BTC_NXT" 1410158341 0
      {}).2.sent.map Request.rawQuery = ["command=returnTradeHistory&currencyPair=BTC_NXT"] :=
  ⟨rfl, rfl⟩

/-! ### The pair of the order book -/

theorem fieldMatches_unique (a b k : String) (ha : fieldMatches a k = true)
    (hb : fieldMatches b k = true) : foldName a = foldName b := by
  simp only [fieldMatches, decide_eq_true_eq] at ha hb
  rw [← ha, ← hb]

theorem orderBook_setField_fields (env : Env) (o o1 : orderBookFromJSON env.F64) (k : String)
    (v : JSON) (h : orderBookFromJSON.setField env o k v = some o1) :
    o1.IsFrozen = (if fieldMatches "isFrozen" k then keepString o.IsFrozen v else o.IsFrozen) ∧
    o1.Seq = (if fieldMatches "seq" k then keepInt o.Seq v else o.Seq) := by
  have hnot : ∀ a b : String, foldName a ≠ foldName b → fieldMatches a k = true →
      fieldMatches b k = false := fun a b hab ha => by
    cases hb : fieldMatches b k with
    | false => rfl
    | true => exact absurd (fieldMatches_unique a b k ha hb) hab
  simp only [orderBookFromJSON.setField] at h
  by_cases h1 : fieldMatches "asks" k = true
  · rw [if_pos h1] at h
    obtain ⟨x, _, hx⟩ := Option.map_eq_some'.mp h
    subst hx
    simp [hnot "asks" "isFrozen" (by decide) h1, hnot "asks" "seq" (by decide) h1]
  · rw [if_neg h1] at h
    by_cases h2 : fieldMatches "bids" k = true
    · rw [if_pos h2] at h
      obtain ⟨x, _, hx⟩ := Option.map_eq_some'.mp h
      subst hx
      simp [hnot "bids" "isFrozen" (by decide) h2, hnot "bids" "seq" (by decide) h2]
    · rw [if_neg h2] at h
      by_cases h3 : fieldMatches "isFrozen" k = true
      · rw [if_pos h3] at h
        obtain ⟨x, hd, hx⟩ := Option.map_eq_some'.mp h
        subst hx
        have h4 := hnot "isFrozen" "seq" (by decide) h3
        cases v <;> simp_all [decString, keepString]
      · rw [if_neg h3] at h
        by_cases h4 : fieldMatches "seq" k = true
        · rw [if_pos h4] at h
          obtain ⟨x, hd, hx⟩ := Option.map_eq_some'.mp h
          subst hx
          cases v <;> simp_all [decInt64, keepInt]
        · rw [if_neg h4] at h
          cases h
          simp [h3, h4]

theorem orderBook_decMembers_fields (env : Env) (kvs : List (String × JSON))
    (o o2 : orderBookFromJSON env.F64)
    (h : decMembers (orderBookFromJSON.setField env) o kvs = some o2) :
    o2.IsFrozen = payloadString "isFrozen" o.IsFrozen kvs ∧
    o2.Seq = payloadInt "seq" o.Seq kvs := by
  induction kvs generalizing o with
  | nil =>
    simp only [decMembers, Option.some.injEq] at h
    subst h
    exact ⟨rfl, rfl⟩
  | cons e kvs ih =>
    obtain ⟨k, v⟩ := e
    simp only [decMembers] at h
    cases hs : orderBookFromJSON.setField env o k v with
    | none => simp [hs] at h
    | some o1 =>
      simp only [hs] at h
      obtain ⟨hf, hq⟩ := orderBook_setField_fields env o o1 k v hs
      obtain ⟨h1, h2⟩ := ih o1 h
      rw [h1, h2, hf, hq]
      exact ⟨rfl, rfl⟩

/-- C12: for every pair other than `"all"`, every depth and every response whose body decodes
into the order-book shape, `GetOrderBook` returns an order book whose `Pair` is the pair given by
the caller, whatever the payload contains, and whose `IsFrozen` and `Seq` are those the payload
decodes to: for a payload object, the string of its last `isFrozen` member and the integer of
its last `seq` member. -/
theorem GetOrderBook_pair_is_the_input (env : Env) (sys : Sys) (currencyPair : String)
    (depth : Nat) (w : World) (j : JSON) (o : orderBookFromJSON env.F64)
    (hpair : currencyPair ≠ "all")
    (hbody : sys.roundTrip w.sent.length (publicRequest "returnOrderBook"
      [{ key := "currencyPair", value := currencyPair },
       { key := "depth", value := toString depth }]) = .body (some j))
    (hdec : decStruct (orderBookFromJSON.setField env) {} j = some o) :
    ∃ book, (GetOrderBook env sys currencyPair depth w).1 = .ok book ∧
      book.Pair = currencyPair ∧ book.IsFrozen = o.IsFrozen ∧ book.Seq = o.Seq ∧
      ∀ kvs, j = .obj kvs →
        book.IsFrozen = payloadString "isFrozen" "" kvs ∧ book.Seq = payloadInt "seq" 0 kvs := by
  refine ⟨{ Pair := currencyPair, Asks := convertRows env o.Asks [],
            Bids := convertRows env o.Bids [], IsFrozen := o.IsFrozen, Seq := o.Seq },
    ?_, rfl, rfl, rfl, ?_⟩
  · simp only [GetOrderBook, hpair, if_false, publicCall, processRequest, hbody, hdec,
      Outcome.andThen, convertOrderBook]
  · intro kvs hj
    subst hj
    exact orderBook_decMembers_fields env kvs {} o hdec

/-- Witness of C12 on `orderBookExample`, whose payload names the pair `USDT_BTC`: the order
book returned for `BTC_LTC` has `Pair == "BTC_LTC"`, `IsFrozen == "1"` and `Seq == 42`. -/
theorem GetOrderBook_pair_is_the_input_witness :
    "BTC_LTC" ≠ "all" ∧
    (∃ o, decStruct (orderBookFromJSON.setField Env.decimal) {} orderBookExample = some o) ∧
    ∃ book, (GetOrderBook Env.decimal (Sys.answering orderBookExample) "BTC_LTC" 10 {}).1 =
        .ok book ∧
      book.Pair = "BTC_LTC" ∧ book.IsFrozen = "1" ∧ book.Seq = 42 :=
  ⟨by decide, ⟨_, rfl⟩, by
    obtain ⟨book, h1, h2, _, _, h5⟩ :=
      GetOrderBook_pair_is_the_input Env.decimal (Sys.answering orderBookExample) "BTC_LTC" 10 {}
        orderBookExample _ (by decide) rfl rfl
    exact ⟨book, h1, h2, (h5 _ rfl).1.trans rfl, (h5 _ rfl).2.trans rfl⟩⟩

/-! ### Repeated members -/

/-- A repeated `offers` member is decoded into the records the first one left: the second array
overwrites the rate of the first offer and keeps its amount, and the offer the second array does
not reach is dropped from the slice. -/
theorem GetLoanOrders_repeated_offers_merge :
    (GetLoanOrders Env.decimal (Sys.answering (.obj [
        ("offers", .arr [.obj [("rate", .str "0.01"), ("amount", .str "5")],
                         .obj [("rate", .str "0.03"), ("amount", .str "7")]]),
        ("offers", .arr [.obj [("rate", .str "0.02")]])])) "BTC" {}).1 =
      .ok { Offers := [{ Rate := ⟨false, ['0'], ['0', '2']⟩, Amount := ⟨false, ['5'], []⟩,
                         RangeMin := 0, RangeMax := 0 }] } :=
  rfl

/-- On an array decoded into an empty slice, decoding into the backing array is decoding every
element from nil. -/
theorem decElemsInto_nil {S : Type} (zero : S) (step : S → String → JSON → Option S)
    (xs : List JSON) :
    decElemsInto (decPtrInto zero step) none [] xs = decElems (decPtr zero step) xs := by
  induction xs with
  | nil => rfl
  | cons x xs ih =>
    have hx : decPtrInto zero step none x = decPtr zero step x := by
      cases x <;> rfl
    simp only [decElemsInto, decElems, ih, hx]

end Poloniex
